import Mathlib

/-!
Verification of the kstor key-value store (path-addressed nested-value engine,
query-matching engine, and the DocumentStore state machine) against its
natural-language specification.

The JavaScript/TypeScript source is shallowly embedded:

* JavaScript values are modelled by the inductive type `JVal` (objects are
  ordered association lists, mirroring JS insertion-ordered string keys;
  `vUndef` is the JS `undefined`, distinct from `vNull`).
* The path accessor (the `chek` library's `get`/`set`/`del`/`has`, an external
  dependency whose source is not part of this repository) is modelled from the
  specification's PathAccessor contract, in namespace `Chek`.
* The store class `KStor` (db getter/setter, defaults, get/set/del/has, query
  engine, getPath) is translated function by function from the source, in
  namespace `KStor`.  External collaborators (filesystem, cipher, JSON
  parser, regular-expression engine) enter as explicit outcome parameters.
-/

/-- A JavaScript value as it occurs in documents and queries: `undefined`,
`null`, booleans, numbers (modelled as integers; the claims under study use
only integral numbers), strings, `Date` objects (by their epoch-millisecond
value), `RegExp` objects (source and flags), arrays and plain objects
(insertion-ordered association lists). -/
inductive JVal where
  | vUndef : JVal
  | vNull : JVal
  | vBool : Bool → JVal
  | vNum : Int → JVal
  | vStr : String → JVal
  | vDate : Int → JVal
  | vRegex : String → String → JVal
  | vArr : List JVal → JVal
  | vObj : List (String × JVal) → JVal

namespace Chek

/-- Modelled from the spec: a path segment is "either a property-name segment
or a numeric array-index segment" (spec section 3, Path). -/
inductive Seg where
  | name : String → Seg
  | idx : Nat → Seg
deriving DecidableEq, Repr

/-- First value bound to a key in an association list (JS objects have unique
keys, so this is ordinary property lookup). -/
def lookupF : List (String × JVal) → String → Option JVal
  | [], _ => none
  | (k, v) :: rest, key => if k == key then some v else lookupF rest key

/-- Replace the value at a key, everywhere it occurs. -/
def replaceVal (fs : List (String × JVal)) (key : String) (x : JVal) :
    List (String × JVal) :=
  fs.map (fun p => if p.1 == key then (key, x) else p)

/-- Write a value at an array index, padding with `undefined` holes the way a
JS assignment `arr[i] = v` beyond the current length does. -/
def listWrite : List JVal → Nat → JVal → List JVal
  | [], 0, v => [v]
  | _ :: xs, 0, v => v :: xs
  | [], i + 1, v => .vUndef :: listWrite [] i v
  | x :: xs, i + 1, v => x :: listWrite xs i v

/-- Apply a function to the element at an index, a no-op out of range. -/
def listModify (g : JVal → JVal) : Nat → List JVal → List JVal
  | _, [] => []
  | 0, x :: xs => g x :: xs
  | i + 1, x :: xs => x :: listModify g i xs

/-- Split a character list on a separator; mirrors `String.prototype.split`
(an empty input yields one empty chunk). -/
def splitChunks (sep : Char) : List Char → List (List Char)
  | [] => [[]]
  | c :: rest =>
    let r := splitChunks sep rest
    if c = sep then [] :: r
    else
      match r with
      | h :: t => (c :: h) :: t
      | [] => [[c]]

/-- Numeric value of a digit run. -/
def digitsVal (cs : List Char) : Nat :=
  cs.foldl (fun n c => n * 10 + (c.toNat - Char.toNat '0')) 0

/-- Modelled from the spec: "each segment matching `name[<digits>]` is split
further into a name segment followed by an index segment"; an empty segment
is a parse failure; any other chunk is a plain property name. -/
def parseSeg (cs : List Char) : Option (List Seg) :=
  if cs.isEmpty then none
  else
    let n := cs.takeWhile (fun c => c ≠ '[')
    match cs.dropWhile (fun c => c ≠ '[') with
    | '[' :: r2 =>
      let ds := r2.dropLast
      if r2.getLast? == some ']' && !ds.isEmpty && ds.all Char.isDigit
          && !n.isEmpty then
        some [.name (String.mk n), .idx (digitsVal ds)]
      else some [.name (String.mk cs)]
    | _ => some [.name (String.mk cs)]

/-- Parse every chunk of a dotted path, failing if any chunk fails. -/
def parseChunks : List (List Char) → Option (List Seg)
  | [] => some []
  | c :: rest =>
    match parseSeg c, parseChunks rest with
    | some a, some b => some (a ++ b)
    | _, _ => none

/-- Modelled from the spec: `parse(pathString)` "splits on `.`" and fails
"with InvalidPathError on empty segments" (spec section 4.1). -/
def parsePath (s : String) : Option (List Seg) :=
  parseChunks (splitChunks '.' s.toList)

/-- Modelled from the spec: `get(root, path)` "walks root through each
segment; if any intermediate is missing or not indexable, returns undefined"
(spec section 4.1).  A stored `undefined` (an array hole left by delete) is
reported as absent, per the spec's recommendation that present-but-undefined
is absent. -/
def get : JVal → List Seg → Option JVal
  | v, [] => match v with
    | .vUndef => none
    | _ => some v
  | .vObj fs, .name k :: rest =>
    (match lookupF fs k with
     | some v => get v rest
     | none => none)
  | .vArr xs, .idx i :: rest =>
    (match xs[i]? with
     | some v => get v rest
     | none => none)
  | _, _ => none

/-- Container created for a missing intermediate: "array vs object choice
decided by whether the next segment is numeric" (spec section 4.1). -/
def emptyFor : List Seg → JVal
  | .idx _ :: _ => .vArr []
  | _ => .vObj []

/-- Modelled from the spec: `set(root, path, value)` "walks/creates
intermediate objects or arrays as needed ... and assigns value at the leaf"
(spec section 4.1).  A scalar in the way is overwritten by the needed
container, which is what the round-trip property of spec section 8 forces. -/
def set (root : JVal) : List Seg → JVal → JVal
  | [], v => v
  | .name k :: rest, v =>
    (match root with
     | .vObj fs =>
       (match lookupF fs k with
        | some child => .vObj (replaceVal fs k (set child rest v))
        | none => .vObj (fs ++ [(k, set (emptyFor rest) rest v)]))
     | _ => .vObj [(k, set (emptyFor rest) rest v)])
  | .idx i :: rest, v =>
    (match root with
     | .vArr xs =>
       (match xs[i]? with
        | some child => .vArr (listWrite xs i (set child rest v))
        | none => .vArr (listWrite xs i (set (emptyFor rest) rest v)))
     | _ => .vArr (listWrite [] i (set (emptyFor rest) rest v)))

/-- Modelled from the spec: `delete(root, path)` "removes the leaf key/index
if present; no-op if the path does not resolve"; deleting an array index
leaves an `undefined` hole (no compaction), consistent with `get`/`has`
(spec section 4.1). -/
def del (root : JVal) : List Seg → JVal
  | [] => root
  | [seg] =>
    (match seg, root with
     | .name k, .vObj fs => .vObj (fs.filter (fun p => p.1 != k))
     | .idx i, .vArr xs => .vArr (listModify (fun _ => .vUndef) i xs)
     | _, _ => root)
  | seg :: rest =>
    (match seg, root with
     | .name k, .vObj fs =>
       .vObj (fs.map (fun p => if p.1 == k then (k, del p.2 rest) else p))
     | .idx i, .vArr xs => .vArr (listModify (fun child => del child rest) i xs)
     | _, _ => root)

/-- Modelled from the spec: `has(root, path)` is "true iff get would return a
defined value at that exact path" (spec section 4.1). -/
def has (root : JVal) (p : List Seg) : Bool :=
  (get root p).isSome

/-- String-path variants, as the store calls them (`chek`'s exports take a
dotted string).  An unparsable path behaves as not-found / no-op. -/
def getStr (root : JVal) (path : String) : Option JVal :=
  match parsePath path with
  | some p => get root p
  | none => none

/-- `get` with JS semantics for the miss case: `undefined`. -/
def getStrU (root : JVal) (path : String) : JVal :=
  (getStr root path).getD .vUndef

def setStr (root : JVal) (path : String) (v : JVal) : JVal :=
  match parsePath path with
  | some p => set root p v
  | none => root

def delStr (root : JVal) (path : String) : JVal :=
  match parsePath path with
  | some p => del root p
  | none => root

def hasStr (root : JVal) (path : String) : Bool :=
  (getStr root path).isSome

theorem lookupF_replaceVal (fs : List (String × JVal)) (k : String) (x : JVal) :
    lookupF (replaceVal fs k x) k = (lookupF fs k).map (fun _ => x) := by
  induction fs with
  | nil => rfl
  | cons p rest ih =>
    obtain ⟨k0, v0⟩ := p
    simp only [replaceVal, List.map_cons] at ih ⊢
    by_cases h : (k0 == k) = true
    · rw [if_pos h]
      simp [lookupF, h]
    · rw [if_neg h]
      simp only [lookupF, if_neg h]
      exact ih

theorem lookupF_append_right (fs gs : List (String × JVal)) (k : String)
    (h : lookupF fs k = none) : lookupF (fs ++ gs) k = lookupF gs k := by
  induction fs with
  | nil => rfl
  | cons p rest ih =>
    obtain ⟨k0, v0⟩ := p
    simp only [List.cons_append, lookupF] at h ⊢
    by_cases hk : (k0 == k) = true
    · rw [if_pos hk] at h
      exact absurd h (by simp)
    · rw [if_neg hk] at h ⊢
      exact ih h

theorem lookupF_filter_ne (fs : List (String × JVal)) (k : String) :
    lookupF (fs.filter (fun p => p.1 != k)) k = none := by
  induction fs with
  | nil => rfl
  | cons p rest ih =>
    obtain ⟨k0, v0⟩ := p
    simp only [List.filter_cons]
    by_cases h : (k0 == k) = true
    · rw [if_neg (by simp [bne, h])]
      exact ih
    · rw [if_pos (by simp [bne, h])]
      simp only [lookupF, if_neg h]
      exact ih

theorem lookupF_map_del (fs : List (String × JVal)) (k : String)
    (rest : List Seg) :
    lookupF (fs.map (fun p => if p.1 == k then (k, del p.2 rest) else p)) k
      = (lookupF fs k).map (fun c => del c rest) := by
  induction fs with
  | nil => rfl
  | cons p fs' ih =>
    obtain ⟨k0, v0⟩ := p
    simp only [List.map_cons]
    by_cases h : (k0 == k) = true
    · rw [if_pos h]
      simp [lookupF, h]
    · rw [if_neg h]
      simp only [lookupF, if_neg h]
      exact ih

theorem listWrite_getElem (xs : List JVal) (i : Nat) (v : JVal) :
    (listWrite xs i v)[i]? = some v := by
  induction i generalizing xs with
  | zero => cases xs <;> simp [listWrite]
  | succ n ih => cases xs <;> simp [listWrite, ih]

theorem listModify_getElem (g : JVal → JVal) (i : Nat) (xs : List JVal) :
    (listModify g i xs)[i]? = (xs[i]?).map g := by
  induction i generalizing xs with
  | zero => cases xs <;> simp [listModify]
  | succ n ih => cases xs <;> simp [listModify, ih]

theorem get_nil_of_ne_undef (v : JVal) (hv : v ≠ .vUndef) :
    get v [] = some v := by
  cases v <;> first | rfl | exact absurd rfl hv

theorem get_singleton (k : String) (x : JVal) (rest : List Seg) :
    get (.vObj [(k, x)]) (.name k :: rest) = get x rest := by
  simp [get, lookupF]

/-- Round-trip: reading back the exact path just written yields the written
value (the written value being a document value, not `undefined`). -/
theorem get_set (p : List Seg) (D v : JVal) (hv : v ≠ .vUndef) :
    get (set D p v) p = some v := by
  induction p generalizing D with
  | nil => exact get_nil_of_ne_undef v hv
  | cons seg rest ih =>
    cases seg with
    | name k =>
      cases D with
      | vObj fs =>
        cases h : lookupF fs k with
        | some child =>
          simp only [set, h, get, lookupF_replaceVal, Option.map_some']
          exact ih _
        | none =>
          simp only [set, h, get]
          rw [lookupF_append_right fs _ k h]
          simpa [lookupF] using ih _
      | vUndef => simp only [set]; rw [get_singleton]; exact ih _
      | vNull => simp only [set]; rw [get_singleton]; exact ih _
      | vBool b => simp only [set]; rw [get_singleton]; exact ih _
      | vNum n => simp only [set]; rw [get_singleton]; exact ih _
      | vStr s => simp only [set]; rw [get_singleton]; exact ih _
      | vDate d => simp only [set]; rw [get_singleton]; exact ih _
      | vRegex a b => simp only [set]; rw [get_singleton]; exact ih _
      | vArr xs => simp only [set]; rw [get_singleton]; exact ih _
    | idx i =>
      cases D with
      | vArr xs =>
        cases h : xs[i]? with
        | some child => simp only [set, h, get, listWrite_getElem]; exact ih _
        | none => simp only [set, h, get, listWrite_getElem]; exact ih _
      | vUndef => simp only [set, get, listWrite_getElem]; exact ih _
      | vNull => simp only [set, get, listWrite_getElem]; exact ih _
      | vBool b => simp only [set, get, listWrite_getElem]; exact ih _
      | vNum n => simp only [set, get, listWrite_getElem]; exact ih _
      | vStr s => simp only [set, get, listWrite_getElem]; exact ih _
      | vDate d => simp only [set, get, listWrite_getElem]; exact ih _
      | vRegex a b => simp only [set, get, listWrite_getElem]; exact ih _
      | vObj fs => simp only [set, get, listWrite_getElem]; exact ih _

/-- After deleting a (nonempty) path, reading that path finds nothing. -/
theorem get_del (p : List Seg) (D : JVal) (hp : p ≠ []) :
    get (del D p) p = none := by
  induction p generalizing D with
  | nil => exact absurd rfl hp
  | cons seg rest ih =>
    cases rest with
    | nil =>
      cases seg with
      | name k =>
        cases D <;> simp [del, get, lookupF_filter_ne]
      | idx i =>
        cases D <;> simp only [del, get]
        case vArr xs =>
          rw [listModify_getElem]
          cases xs[i]? <;> simp [get]
    | cons seg2 rest2 =>
      cases seg with
      | name k =>
        cases D <;> simp only [del, get]
        case vObj fs =>
          rw [lookupF_map_del]
          cases lookupF fs k with
          | some child => simpa using ih _ (by simp)
          | none => simp
      | idx i =>
        cases D <;> simp only [del, get]
        case vArr xs =>
          rw [listModify_getElem]
          cases xs[i]? with
          | some child => simpa using ih _ (by simp)
          | none => simp

theorem lookupF_append (fs gs : List (String × JVal)) (k : String) :
    lookupF (fs ++ gs) k
      = (match lookupF fs k with
         | some v => some v
         | none => lookupF gs k) := by
  induction fs with
  | nil => rfl
  | cons p rest ih =>
    obtain ⟨k0, v0⟩ := p
    simp only [List.cons_append, lookupF]
    by_cases h : (k0 == k) = true
    · rw [if_pos h, if_pos h]
    · rw [if_neg h, if_neg h]
      exact ih

theorem lookupF_replaceVal_ne (fs : List (String × JVal)) (k0 k : String)
    (x : JVal) (h : (k0 == k) = false) :
    lookupF (replaceVal fs k0 x) k = lookupF fs k := by
  induction fs with
  | nil => rfl
  | cons p rest ih =>
    obtain ⟨k1, v1⟩ := p
    simp only [replaceVal, List.map_cons] at ih ⊢
    by_cases h1 : (k1 == k0) = true
    · rw [if_pos h1]
      have hk1 : k1 = k0 := by simpa using h1
      subst hk1
      simp only [lookupF, h, if_false]
      exact ih
    · rw [if_neg h1]
      simp only [lookupF]
      by_cases h2 : (k1 == k) = true
      · rw [if_pos h2, if_pos h2]
      · rw [if_neg h2, if_neg h2]
        exact ih

end Chek

/-- JS truthiness of a value, as JS `if`/`||`/`&&` see it. -/
def jsTruthy : JVal → Bool
  | .vUndef => false
  | .vNull => false
  | .vBool b => b
  | .vNum n => n != 0
  | .vStr s => s != ""
  | _ => true

namespace KStor

/-- A JavaScript `Error` as the store's catch blocks inspect it: its `name`
(`"SyntaxError"` for `JSON.parse` failures, `"Error"` for OpenSSL bad-decrypt
failures), its `code` (`"ENOENT"`, `"EACCES"`, ... for filesystem errors) and
its `message`. -/
structure JErr where
  name : String
  code : String
  message : String
deriving DecidableEq, Repr

/-- The store's mutable fields (`kstor.ts`, class `KStor`): the cached
document, the `_loaded`/`_dirty`/`_writing`/`_loaded_defaults` flags, and the
options the claims depend on (`encryptionKey`, `entrypoint`, `transform`).
The uninitialised (`undefined`) initial value of the flags is `false`, which
is how the source's boolean tests read them. -/
structure StoreState where
  cache : JVal
  loaded : Bool
  dirty : Bool
  writing : Bool
  loadedDefaults : Bool
  encryptionKey : Option String
  entrypoint : Option String
  transform : Option (String → JVal → JVal)

/-- `normalizeKey` (kstor.ts): prefix the key with the entrypoint. -/
def normalizeKey (entrypoint : Option String) (key : String) : String :=
  match entrypoint with
  | some e => e ++ "." ++ key
  | none => key

/-- Association list `[("0", x0), ("1", x1), ...]` of an array's elements,
as JS `for (const k in arr)` and `Object.assign` enumerate them. -/
def indexedFields : List JVal → Nat → List (String × JVal)
  | [], _ => []
  | x :: xs, i => (toString i, x) :: indexedFields xs (i + 1)

/-- `Object.assign(Object.create(null), parsed)` from the db getter: copies
the own enumerable properties of the parsed value onto a fresh bare object
(arrays and strings contribute index keys; primitives contribute nothing). -/
def shallowAssignObj : JVal → JVal
  | .vObj fs => .vObj fs
  | .vArr xs => .vObj (indexedFields xs 0)
  | .vStr s => .vObj (indexedFields (s.toList.map (fun c => JVal.vStr c.toString)) 0)
  | _ => .vObj []

/-- `for (const k in collection) collection[k] = transform(k, collection[k])`
over the enumerable fields; primitives are left unchanged (JS `for..in` over
a primitive enumerates nothing assignable). -/
def mapFieldsFn (fn : String → JVal → JVal) : JVal → JVal
  | .vObj fs => .vObj (fs.map (fun p => (p.1, fn p.1 p.2)))
  | .vArr xs => .vArr ((indexedFields xs 0).map (fun p => fn p.1 p.2))
  | v => v

/-- `transform(data)` (kstor.ts): run the configured transform over the
top-level (or entrypoint-scoped) fields. -/
def transformApply (fn : String → JVal → JVal) (entrypoint : Option String)
    (data : JVal) : JVal :=
  match entrypoint with
  | none => mapFieldsFn fn data
  | some p =>
    let collection := Chek.getStrU data p
    Chek.setStr data p (mapFieldsFn fn collection)

/-- `if (err.code === 'EACCES') err.message = `...` (ACCESS DENIED)`` from
both catch blocks. -/
def annotateAccess (e : JErr) : JErr :=
  if e.code == "EACCES" then { e with message := e.message ++ " (ACCESS DENIED)" }
  else e

/-- Decode a successfully read file: decipher first when an `encryptionKey`
is configured, then `JSON.parse`. -/
def decodeContent (s : StoreState) (content : String)
    (decrypt : String → Except JErr String)
    (parse : String → Except JErr JVal) : Except JErr JVal :=
  match s.encryptionKey with
  | some _ =>
    (match decrypt content with
     | .error e => .error e
     | .ok plain => parse plain)
  | none => parse content

/-- The try-block pipeline of the db getter: `readFileSync`, then (only when
an `encryptionKey` is configured) decipher, then `JSON.parse`.  The three
collaborators are passed in as outcome functions; the first stage to throw
aborts the pipeline with its error. -/
def readPipeline (s : StoreState) (raw : Except JErr String)
    (decrypt : String → Except JErr String)
    (parse : String → Except JErr JVal) : Except JErr JVal :=
  match raw with
  | .error e => .error e
  | .ok content => decodeContent s content decrypt parse

/-- Outcome of one db getter call: the returned document or the propagated
error, the post-call store state, whether persistence was touched
(`readFileSync` reached), and the events emitted. -/
structure GetResult where
  result : Except JErr JVal
  state : StoreState
  didRead : Bool
  events : List String

/-- Success path of the db getter's try block: shallow-copy the parsed value
onto a bare object, run the transform when defaults have already been loaded,
clear `dirty`, set `loaded`, emit `loaded`. -/
def dbGetLoaded (s : StoreState) (doc : JVal) : GetResult :=
  let cache1 := shallowAssignObj doc
  let cache2 :=
    match s.transform with
    | some fn =>
      if s.loadedDefaults then transformApply fn s.entrypoint cache1 else cache1
    | none => cache1
  ⟨.ok cache2, { s with dirty := false, loaded := true }, true, ["loaded"]⟩

/-- The db getter's catch block: set `dirty`, swallow `ENOENT` (after
`ensureDir`) into a fresh empty document, annotate an `EACCES` message,
swallow a `SyntaxError` into a fresh empty document, rethrow anything else. -/
def dbGetFail (s : StoreState) (e : JErr) : GetResult :=
  if e.code == "ENOENT" then ⟨.ok (.vObj []), { s with dirty := true }, true, []⟩
  else if (annotateAccess e).name == "SyntaxError" then
    ⟨.ok (.vObj []), { s with dirty := true }, true, []⟩
  else ⟨.error (annotateAccess e), { s with dirty := true }, true, []⟩

/-- `get db()` (kstor.ts lines 203-269): return the cache when clean and
loaded; otherwise run the read/decrypt/parse pipeline and dispatch to the
success path or the catch block. -/
def dbGet (s : StoreState) (raw : Except JErr String)
    (decrypt : String → Except JErr String)
    (parse : String → Except JErr JVal) : GetResult :=
  if !s.dirty && s.loaded then ⟨.ok s.cache, s, false, []⟩
  else
    match readPipeline s raw decrypt parse with
    | .ok doc => dbGetLoaded s doc
    | .error e => dbGetFail s e

/-- Outcome of one db setter call. -/
structure SetResult where
  result : Except JErr Unit
  state : StoreState
  events : List String

/-- `set db(data)` (kstor.ts lines 271-309): `data = data || {}`, serialize /
encrypt / write atomically (`wout` is the combined outcome of `ensureDir`,
the cipher and `writeAtomic.sync`), replace the cache, emit `persisted`, set
`dirty = true` and clear `writing`; on failure set `dirty = true`, clear
`writing`, annotate `EACCES` and rethrow. -/
def dbSet (s : StoreState) (data : JVal) (wout : Except JErr Unit) : SetResult :=
  let data2 := if jsTruthy data then data else .vObj []
  match wout with
  | .ok _ =>
    ⟨.ok (), { s with cache := data2, dirty := true, writing := false }, ["persisted"]⟩
  | .error e =>
    ⟨.error (annotateAccess e), { s with dirty := true, writing := false }, []⟩

/-- Look a normalized key up in a completed db read, propagating a getter
error. -/
def getFrom (r : GetResult) (entrypoint : Option String) (key : String) :
    Except JErr (JVal × StoreState) :=
  match r.result with
  | .error e => .error e
  | .ok doc => .ok (Chek.getStrU doc (normalizeKey entrypoint key), r.state)

/-- `get(key, def?)` (kstor.ts lines 417-419): read the db and look the
normalized key up; the `dflt` parameter is accepted and never used, exactly
as in the source. -/
def get (s : StoreState) (raw : Except JErr String)
    (decrypt : String → Except JErr String)
    (parse : String → Except JErr JVal) (key : String) (dflt : JVal) :
    Except JErr (JVal × StoreState) :=
  getFrom (dbGet s raw decrypt parse) s.entrypoint key

end KStor

namespace KStor

/-- Own enumerable string-keyed properties a value contributes to
`Object.assign`. -/
def fieldsOf : JVal → List (String × JVal)
  | .vObj fs => fs
  | .vArr xs => indexedFields xs 0
  | .vStr s => indexedFields (s.toList.map (fun c => JVal.vStr c.toString)) 0
  | _ => []

def containsKeyL (acc : List (String × JVal)) (k : String) : Bool :=
  acc.any (fun p => p.1 == k)

/-- Copy source fields onto an accumulator object left to right, overwriting
in place (JS `Object.assign` keeps the first-insertion position of an
overwritten key). -/
def assignFields (acc : List (String × JVal)) :
    List (String × JVal) → List (String × JVal)
  | [] => acc
  | (k, v) :: rest =>
    assignFields
      (if containsKeyL acc k then Chek.replaceVal acc k v else acc ++ [(k, v)]) rest

/-- `Object.assign(Object.create(null), a, b)`. -/
def objAssign2 (a b : JVal) : JVal :=
  .vObj (assignFields (assignFields [] (fieldsOf a)) (fieldsOf b))

/-- The entrypoint wrap in `defaults` (kstor.ts lines 383-387): when an
entrypoint is configured and the supplied defaults do not already contain it,
nest them under it. -/
def dataWrapped (entrypoint : Option String) (data : JVal) : JVal :=
  match entrypoint with
  | some ep => if !(Chek.hasStr data ep) then Chek.setStr (.vObj []) ep data else data
  | none => data

/-- Outcome of a `defaults` call. -/
structure DefaultsResult where
  result : Except JErr Unit
  state : StoreState

/-- The merge step of `defaults`:
`Object.assign(createObj(), data, cache)` over the entrypoint-wrapped
defaults, so the on-disk `cache` is applied last. -/
def defaultsMerge (s : StoreState) (data cache : JVal) : JVal :=
  objAssign2 (dataWrapped s.entrypoint data) cache

/-- The remainder of `defaults` once the db read has completed: merge, run
the transform, write back through the db setter, mark `loaded_defaults`. -/
def defaultsFrom (r : GetResult) (s : StoreState) (wout : Except JErr Unit)
    (data : JVal) : DefaultsResult :=
  match r.result with
  | .error e => ⟨.error e, r.state⟩
  | .ok cache =>
    let merged := defaultsMerge s data cache
    let tr :=
      match s.transform with
      | some fn => transformApply fn s.entrypoint merged
      | none => merged
    (match (dbSet r.state tr wout).result with
     | .error e => ⟨.error e, (dbSet r.state tr wout).state⟩
     | .ok _ => ⟨.ok (), { (dbSet r.state tr wout).state with loadedDefaults := true }⟩)

/-- `defaults(data)` (kstor.ts lines 380-396): read the current document,
wrap the supplied defaults under the entrypoint if needed, merge (on-disk
values last, so they win), run the transform, write the result back through
the db setter, and mark `loaded_defaults`. -/
def defaults (s : StoreState) (raw : Except JErr String)
    (decrypt : String → Except JErr String)
    (parse : String → Except JErr JVal) (wout : Except JErr Unit)
    (data : JVal) : DefaultsResult :=
  defaultsFrom (dbGet s raw decrypt parse) s wout data

theorem containsKeyL_eq_lookupF_isSome (acc : List (String × JVal)) (k : String) :
    containsKeyL acc k = (Chek.lookupF acc k).isSome := by
  induction acc with
  | nil => rfl
  | cons p rest ih =>
    obtain ⟨k0, v0⟩ := p
    simp only [containsKeyL, List.any_cons, Chek.lookupF] at ih ⊢
    by_cases h : (k0 == k) = true
    · rw [if_pos h]
      simp [h]
    · rw [if_neg h]
      simp only [h, Bool.false_or]
      exact ih

theorem containsKeyL_eq_false_iff (acc : List (String × JVal)) (k : String) :
    containsKeyL acc k = false ↔ k ∉ acc.map Prod.fst := by
  simp only [containsKeyL, List.any_eq_true, not_exists]
  constructor
  · intro h hm
    obtain ⟨p, hp, he⟩ := List.mem_map.mp hm
    have : acc.any (fun p => p.1 == k) = true :=
      List.any_eq_true.mpr ⟨p, hp, by simp [he]⟩
    simp only [containsKeyL] at h
    rw [h] at this
    exact Bool.false_ne_true this
  · intro h
    by_contra hc
    have : acc.any (fun p => p.1 == k) = true := by
      cases hx : acc.any (fun p => p.1 == k) with
      | false => exact absurd hx hc
      | true => rfl
    obtain ⟨p, hp, he⟩ := List.any_eq_true.mp this
    exact h (List.mem_map.mpr ⟨p, hp, by simpa using he⟩)

theorem lookupF_assignFields_not_mem (src : List (String × JVal)) (k : String)
    (acc : List (String × JVal)) (h : containsKeyL src k = false) :
    Chek.lookupF (assignFields acc src) k = Chek.lookupF acc k := by
  induction src generalizing acc with
  | nil => rfl
  | cons p rest ih =>
    obtain ⟨k0, v0⟩ := p
    simp only [containsKeyL, List.any_cons, Bool.or_eq_false_iff] at h
    obtain ⟨h0, hrest⟩ := h
    simp only [assignFields]
    rw [ih _ hrest]
    by_cases hc : containsKeyL acc k0 = true
    · rw [if_pos hc]
      exact Chek.lookupF_replaceVal_ne acc k0 k v0 h0
    · rw [if_neg hc]
      rw [Chek.lookupF_append]
      cases hl : Chek.lookupF acc k with
      | some v => rfl
      | none => simp [Chek.lookupF, h0]

/-- Fields copied last win: if the (unique) key occurs in `src`, the value
after `Object.assign(..., src)` is `src`'s value, whatever was accumulated
before. -/
theorem lookupF_assignFields_mem (src : List (String × JVal)) (k : String)
    (acc : List (String × JVal)) (hnd : (src.map Prod.fst).Nodup)
    (hk : containsKeyL src k = true) :
    Chek.lookupF (assignFields acc src) k = Chek.lookupF src k := by
  induction src generalizing acc with
  | nil => exact absurd hk (by simp [containsKeyL])
  | cons p rest ih =>
    obtain ⟨k0, v0⟩ := p
    simp only [List.map_cons, List.nodup_cons] at hnd
    obtain ⟨hnm, hnd2⟩ := hnd
    simp only [assignFields]
    by_cases h0 : (k0 == k) = true
    · have hk0 : k0 = k := by simpa using h0
      rw [hk0] at hnm ⊢
      have hrest : containsKeyL rest k = false :=
        (containsKeyL_eq_false_iff rest k).mpr hnm
      rw [lookupF_assignFields_not_mem rest k _ hrest]
      simp only [Chek.lookupF, if_pos (by simp : (k == k) = true)]
      by_cases hc : containsKeyL acc k = true
      · rw [if_pos hc]
        rw [containsKeyL_eq_lookupF_isSome] at hc
        cases hl : Chek.lookupF acc k with
        | some v => simp [Chek.lookupF_replaceVal, hl]
        | none => rw [hl] at hc; exact absurd hc (by simp)
      · rw [if_neg hc]
        rw [Chek.lookupF_append]
        have hnone : Chek.lookupF acc k = none := by
          rw [containsKeyL_eq_lookupF_isSome] at hc
          exact Option.not_isSome_iff_eq_none.mp (by simpa using hc)
        rw [hnone]
        simp [Chek.lookupF]
    · have hk' : containsKeyL rest k = true := by
        simp only [containsKeyL, List.any_cons, h0, Bool.false_or] at hk
        exact hk
      rw [ih _ hnd2 hk']
      simp [Chek.lookupF, h0]

end KStor

namespace KStor

theorem annotateAccess_name (e : JErr) : (annotateAccess e).name = e.name := by
  unfold annotateAccess
  split <;> rfl

theorem dbGet_fast (s : StoreState) (raw : Except JErr String)
    (decrypt : String → Except JErr String) (parse : String → Except JErr JVal)
    (h : (!s.dirty && s.loaded) = true) :
    dbGet s raw decrypt parse = ⟨.ok s.cache, s, false, []⟩ := by
  unfold dbGet
  rw [if_pos h]

theorem dbGet_slow_ok (s : StoreState) (raw : Except JErr String)
    (decrypt : String → Except JErr String) (parse : String → Except JErr JVal)
    (doc : JVal) (h : (!s.dirty && s.loaded) = false)
    (hp : readPipeline s raw decrypt parse = .ok doc) :
    dbGet s raw decrypt parse = dbGetLoaded s doc := by
  unfold dbGet
  rw [if_neg (by simp [h]), hp]

theorem dbGet_slow_error (s : StoreState) (raw : Except JErr String)
    (decrypt : String → Except JErr String) (parse : String → Except JErr JVal)
    (e : JErr) (h : (!s.dirty && s.loaded) = false)
    (hp : readPipeline s raw decrypt parse = .error e) :
    dbGet s raw decrypt parse = dbGetFail s e := by
  unfold dbGet
  rw [if_neg (by simp [h]), hp]

theorem dbGetFail_state_cache (s : StoreState) (e : JErr) :
    (dbGetFail s e).state.cache = s.cache := by
  unfold dbGetFail
  split
  · rfl
  · split <;> rfl

theorem dbGetFail_didRead (s : StoreState) (e : JErr) :
    (dbGetFail s e).didRead = true := by
  unfold dbGetFail
  split
  · rfl
  · split <;> rfl

theorem dbGetFail_events (s : StoreState) (e : JErr) :
    (dbGetFail s e).events = [] := by
  unfold dbGetFail
  split
  · rfl
  · split <;> rfl

theorem dbGet_state_cache (s : StoreState) (raw : Except JErr String)
    (decrypt : String → Except JErr String) (parse : String → Except JErr JVal) :
    (dbGet s raw decrypt parse).state.cache = s.cache := by
  by_cases h : (!s.dirty && s.loaded) = true
  · rw [dbGet_fast s raw decrypt parse h]
  · replace h : (!s.dirty && s.loaded) = false := by
      cases hx : (!s.dirty && s.loaded) with
      | false => rfl
      | true => exact absurd hx h
    cases hp : readPipeline s raw decrypt parse with
    | ok doc => rw [dbGet_slow_ok s raw decrypt parse doc h hp]; rfl
    | error e =>
      rw [dbGet_slow_error s raw decrypt parse e h hp]
      exact dbGetFail_state_cache s e

theorem dbGet_didRead_of_slow (s : StoreState) (raw : Except JErr String)
    (decrypt : String → Except JErr String) (parse : String → Except JErr JVal)
    (h : (!s.dirty && s.loaded) = false) :
    (dbGet s raw decrypt parse).didRead = true := by
  cases hp : readPipeline s raw decrypt parse with
  | ok doc => rw [dbGet_slow_ok s raw decrypt parse doc h hp]; rfl
  | error e =>
    rw [dbGet_slow_error s raw decrypt parse e h hp]
    exact dbGetFail_didRead s e

/-- C3 (amended): on the reloading path, a decode failure whose error is a
`SyntaxError` (malformed JSON) is swallowed into an empty document without
raising, with the dirty flag left set; but a decryption failure under a
configured `encryptionKey` (an error that is not named `SyntaxError`, such as
OpenSSL's bad-decrypt error) propagates out of the read instead of producing
the empty-document fallback. -/
theorem c3_decode_failure_behavior (s : StoreState) (raw : Except JErr String)
    (decrypt : String → Except JErr String) (parse : String → Except JErr JVal)
    (hslow : (!s.dirty && s.loaded) = false) :
    (∀ e, readPipeline s raw decrypt parse = .error e → e.name = "SyntaxError" →
      (dbGet s raw decrypt parse).result = .ok (.vObj [])
      ∧ (dbGet s raw decrypt parse).state.dirty = true)
    ∧ (∀ content e, raw = .ok content → s.encryptionKey.isSome = true →
        decrypt content = .error e → e.name ≠ "SyntaxError" →
        e.code ≠ "ENOENT" → e.code ≠ "EACCES" →
        (dbGet s raw decrypt parse).result = .error e) := by
  constructor
  · intro e hpipe hname
    rw [dbGet_slow_error s raw decrypt parse e hslow hpipe]
    unfold dbGetFail
    by_cases hcode : (e.code == "ENOENT") = true
    · rw [if_pos hcode]
      exact ⟨rfl, rfl⟩
    · rw [if_neg hcode]
      rw [if_pos (by simp [annotateAccess_name, hname])]
      exact ⟨rfl, rfl⟩
  · intro content e hraw hkey hdec hname hcode1 hcode2
    obtain ⟨kk, hkk⟩ := Option.isSome_iff_exists.mp hkey
    have hpipe : readPipeline s raw decrypt parse = .error e := by
      subst hraw
      calc readPipeline s (.ok content) decrypt parse
          = decodeContent s content decrypt parse := rfl
        _ = .error e := by
            unfold decodeContent
            rw [hkk, hdec]
    have hann : annotateAccess e = e := by
      unfold annotateAccess
      rw [if_neg (by simp [hcode2])]
    rw [dbGet_slow_error s raw decrypt parse e hslow hpipe]
    unfold dbGetFail
    rw [if_neg (by simp [hcode1]), hann]
    rw [if_neg (by simp [hname])]

/-- OpenSSL's bad-decrypt failure as Node surfaces it: an `Error` (not a
`SyntaxError`) with code `ERR_OSSL_EVP_BAD_DECRYPT`. -/
def badDecryptErr : JErr := ⟨"Error", "ERR_OSSL_EVP_BAD_DECRYPT", "bad decrypt"⟩

/-- The error thrown by `JSON.parse` on malformed input. -/
def syntaxErr : JErr := ⟨"SyntaxError", "", "Unexpected token in JSON"⟩

/-- A store with an `encryptionKey` configured, needing a reload. -/
def encState : StoreState := ⟨.vObj [], false, true, false, false, some "secret", none, none⟩

/-- A store with no options configured, needing a reload. -/
def plainState : StoreState := ⟨.vObj [], false, true, false, false, none, none, none⟩

/-- C3 counterexample: with an `encryptionKey` configured and a persisted
file whose decryption fails (wrong key), the db getter propagates the
bad-decrypt error; it does not return an empty document, contradicting the
claim that decode failures never raise. -/
theorem c3_counterexample :
    (dbGet encState (.ok "6162:6364") (fun _ => .error badDecryptErr)
      (fun _ => .ok (.vObj []))).result = .error badDecryptErr := rfl

theorem c3_witness :
    (!plainState.dirty && plainState.loaded) = false
    ∧ readPipeline plainState (.ok "not json") (fun c => .ok c)
        (fun _ => .error syntaxErr) = .error syntaxErr
    ∧ (dbGet plainState (.ok "not json") (fun c => .ok c)
        (fun _ => .error syntaxErr)).result = .ok (.vObj [])
    ∧ (dbGet plainState (.ok "not json") (fun c => .ok c)
        (fun _ => .error syntaxErr)).state.dirty = true := by
  refine ⟨rfl, rfl, ?_⟩
  exact (c3_decode_failure_behavior plainState (.ok "not json") (fun c => .ok c)
    (fun _ => .error syntaxErr) rfl).1 syntaxErr rfl rfl

/-- C4: after every completed write through the db setter — successful or
failing — the dirty flag is true; a failing write propagates its (possibly
EACCES-annotated) error; and a read that observes `dirty = false` and
`loaded = true` returns the in-memory cache unchanged without touching
persistence and without emitting events. -/
theorem c4_dirty_invariant (s : StoreState) (data : JVal) (wout : Except JErr Unit)
    (raw : Except JErr String) (decrypt : String → Except JErr String)
    (parse : String → Except JErr JVal) :
    (dbSet s data wout).state.dirty = true
    ∧ (∀ e, wout = .error e → (dbSet s data wout).result = .error (annotateAccess e))
    ∧ (s.dirty = false → s.loaded = true →
        dbGet s raw decrypt parse = ⟨.ok s.cache, s, false, []⟩) := by
  refine ⟨?_, ?_, ?_⟩
  · cases wout <;> rfl
  · intro e he
    subst he
    rfl
  · intro h1 h2
    unfold dbGet
    rw [if_pos (by simp [h1, h2])]

/-- A clean, loaded store. -/
def fullState : StoreState := ⟨.vObj [("x", .vNum 1)], true, false, false, true, none, none, none⟩

/-- A plain I/O failure (neither ENOENT nor EACCES). -/
def ioErr : JErr := ⟨"Error", "EIO", "io failure"⟩

theorem c4_witness :
    (dbSet fullState (.vObj []) (.error ioErr)).state.dirty = true
    ∧ (dbSet fullState (.vObj []) (.error ioErr)).result = .error (annotateAccess ioErr)
    ∧ dbGet fullState (.ok "x") (fun c => .ok c) (fun _ => .ok (.vObj []))
        = ⟨.ok fullState.cache, fullState, false, []⟩ :=
  ⟨(c4_dirty_invariant fullState (.vObj []) (.error ioErr) (.ok "x") (fun c => .ok c)
      (fun _ => .ok (.vObj []))).1,
   (c4_dirty_invariant fullState (.vObj []) (.error ioErr) (.ok "x") (fun c => .ok c)
      (fun _ => .ok (.vObj []))).2.1 ioErr rfl,
   (c4_dirty_invariant fullState (.vObj []) (.error ioErr) (.ok "x") (fun c => .ok c)
      (fun _ => .ok (.vObj []))).2.2 rfl rfl⟩

/-- C9: `get(key, def)` ignores its second parameter entirely (the two calls
are literally identical), returns `undefined` — never the supplied default —
when the key is absent from the document, and leaves the cached document
unchanged. -/
theorem c9_get_ignores_default (s : StoreState) (raw : Except JErr String)
    (decrypt : String → Except JErr String) (parse : String → Except JErr JVal)
    (key : String) (d d' : JVal) :
    get s raw decrypt parse key d = get s raw decrypt parse key d'
    ∧ (∀ doc, (dbGet s raw decrypt parse).result = .ok doc →
        Chek.getStr doc (normalizeKey s.entrypoint key) = none →
        get s raw decrypt parse key d = .ok (.vUndef, (dbGet s raw decrypt parse).state))
    ∧ (dbGet s raw decrypt parse).state.cache = s.cache := by
  refine ⟨rfl, ?_, dbGet_state_cache s raw decrypt parse⟩
  intro doc hok hmiss
  calc get s raw decrypt parse key d
      = getFrom (dbGet s raw decrypt parse) s.entrypoint key := rfl
    _ = .ok (Chek.getStrU doc (normalizeKey s.entrypoint key),
          (dbGet s raw decrypt parse).state) := by
        unfold getFrom
        rw [hok]
    _ = .ok (.vUndef, (dbGet s raw decrypt parse).state) := by
        unfold Chek.getStrU
        rw [hmiss]
        rfl

theorem c9_witness :
    (dbGet fullState (.ok "x") (fun c => .ok c) (fun _ => .ok (.vObj []))).result
      = .ok (.vObj [("x", .vNum 1)])
    ∧ Chek.getStr (.vObj [("x", .vNum 1)]) (normalizeKey fullState.entrypoint "a") = none
    ∧ get fullState (.ok "x") (fun c => .ok c) (fun _ => .ok (.vObj [])) "a" (.vNum 99)
        = .ok (.vUndef, (dbGet fullState (.ok "x") (fun c => .ok c) (fun _ => .ok (.vObj []))).state)
    ∧ get fullState (.ok "x") (fun c => .ok c) (fun _ => .ok (.vObj [])) "a" (.vNum 99)
        = get fullState (.ok "x") (fun c => .ok c) (fun _ => .ok (.vObj [])) "a" (.vNum 42) := by
  refine ⟨rfl, rfl, ?_, ?_⟩
  · exact (c9_get_ignores_default fullState (.ok "x") (fun c => .ok c)
      (fun _ => .ok (.vObj [])) "a" (.vNum 99) (.vNum 42)).2.1 (.vObj [("x", .vNum 1)]) rfl rfl
  · exact (c9_get_ignores_default fullState (.ok "x") (fun c => .ok c)
      (fun _ => .ok (.vObj [])) "a" (.vNum 99) (.vNum 42)).1

/-- C10: when the persisted file is missing (ENOENT) the db getter returns a
fresh empty document, leaves the cache and the `loaded` flag untouched, sets
`dirty`, emits no `loaded` event, and therefore every subsequent read reaches
for the filesystem again. -/
theorem c10_enoent_read (s : StoreState) (raw : Except JErr String)
    (decrypt : String → Except JErr String) (parse : String → Except JErr JVal)
    (e : JErr) (hraw : raw = .error e) (hcode : e.code = "ENOENT")
    (hload : s.loaded = false) :
    dbGet s raw decrypt parse = ⟨.ok (.vObj []), { s with dirty := true }, true, []⟩
    ∧ (∀ raw2 decrypt2 parse2,
        (dbGet { s with dirty := true } raw2 decrypt2 parse2).didRead = true) := by
  constructor
  · have hpipe : readPipeline s raw decrypt parse = .error e := by
      unfold readPipeline
      rw [hraw]
    rw [dbGet_slow_error s raw decrypt parse e (by simp [hload]) hpipe]
    unfold dbGetFail
    rw [if_pos (by simp [hcode])]
  · intro raw2 decrypt2 parse2
    exact dbGet_didRead_of_slow _ raw2 decrypt2 parse2 (by simp)

/-- The error thrown by `readFileSync` when the file does not exist. -/
def enoentErr : JErr := ⟨"Error", "ENOENT", "no such file or directory"⟩

theorem c10_witness :
    enoentErr.code = "ENOENT"
    ∧ plainState.loaded = false
    ∧ dbGet plainState (.error enoentErr) (fun c => .ok c) (fun _ => .ok (.vObj []))
        = ⟨.ok (.vObj []), { plainState with dirty := true }, true, []⟩
    ∧ (dbGet { plainState with dirty := true } (.error enoentErr) (fun c => .ok c)
        (fun _ => .ok (.vObj []))).didRead = true := by
  refine ⟨rfl, rfl, ?_, ?_⟩
  · exact (c10_enoent_read plainState (.error enoentErr) (fun c => .ok c)
      (fun _ => .ok (.vObj [])) enoentErr rfl rfl rfl).1
  · exact (c10_enoent_read plainState (.error enoentErr) (fun c => .ok c)
      (fun _ => .ok (.vObj [])) enoentErr rfl rfl rfl).2 (.error enoentErr)
      (fun c => .ok c) (fun _ => .ok (.vObj []))

end KStor

namespace KStor

theorem jsTruthy_objAssign2 (a b : JVal) : jsTruthy (objAssign2 a b) = true := rfl

theorem fieldsOf_objAssign2 (a b : JVal) :
    fieldsOf (objAssign2 a b)
      = assignFields (assignFields [] (fieldsOf a)) (fieldsOf b) := rfl

theorem defaultsFrom_ok (r : GetResult) (s : StoreState) (data cache : JVal)
    (hr : r.result = .ok cache) (htr : s.transform = none) :
    defaultsFrom r s (.ok ()) data
      = ⟨.ok (), { r.state with
            cache := if jsTruthy (defaultsMerge s data cache)
                     then defaultsMerge s data cache else .vObj [],
            dirty := true, writing := false, loadedDefaults := true }⟩ := by
  unfold defaultsFrom
  rw [hr, htr]
  rfl

/-- C6: a `defaults(data)` call merges with the persisted document applied
last, so for every top-level key present both in the (entrypoint-wrapped)
supplied defaults and in the persisted document, the document stored back
maps that key to the persisted document's value — a defaults call never
resets a previously persisted top-level key.  (Stated for a store without a
configured transform; the transform is an orthogonal hook applied after the
merge.) -/
theorem c6_defaults_merge (s : StoreState) (raw : Except JErr String)
    (decrypt : String → Except JErr String) (parse : String → Except JErr JVal)
    (data : JVal) (cfs : List (String × JVal)) (k : String)
    (htr : s.transform = none)
    (hread : (dbGet s raw decrypt parse).result = .ok (.vObj cfs))
    (hnd : (cfs.map Prod.fst).Nodup)
    (hk1 : containsKeyL (fieldsOf (dataWrapped s.entrypoint data)) k = true)
    (hk2 : containsKeyL cfs k = true) :
    (defaults s raw decrypt parse (.ok ()) data).result = .ok ()
    ∧ Chek.lookupF (fieldsOf (defaults s raw decrypt parse (.ok ()) data).state.cache) k
        = Chek.lookupF cfs k := by
  have hval := defaultsFrom_ok (dbGet s raw decrypt parse) s data (.vObj cfs) hread htr
  unfold defaults
  rw [hval]
  refine ⟨rfl, ?_⟩
  show Chek.lookupF (fieldsOf (if jsTruthy (defaultsMerge s data (.vObj cfs)) = true
      then defaultsMerge s data (.vObj cfs) else .vObj [])) k = Chek.lookupF cfs k
  rw [if_pos (show jsTruthy (defaultsMerge s data (.vObj cfs)) = true from rfl)]
  show Chek.lookupF (assignFields
      (assignFields [] (fieldsOf (dataWrapped s.entrypoint data))) cfs) k
    = Chek.lookupF cfs k
  exact lookupF_assignFields_mem cfs k _ hnd hk2

/-- Supplied defaults sharing the key `"a"` with an on-disk document. -/
def c6data : JVal := .vObj [("a", .vNum 1), ("b", .vNum 2)]

theorem c6_witness :
    plainState.transform = none
    ∧ (dbGet plainState (.ok "x") (fun c => .ok c)
        (fun _ => .ok (.vObj [("a", .vNum 7)]))).result = .ok (.vObj [("a", .vNum 7)])
    ∧ ((([("a", JVal.vNum 7)] : List (String × JVal)).map Prod.fst).Nodup)
    ∧ containsKeyL (fieldsOf (dataWrapped plainState.entrypoint c6data)) "a" = true
    ∧ containsKeyL [("a", JVal.vNum 7)] "a" = true
    ∧ (defaults plainState (.ok "x") (fun c => .ok c)
        (fun _ => .ok (.vObj [("a", .vNum 7)])) (.ok ()) c6data).result = .ok ()
    ∧ Chek.lookupF (fieldsOf (defaults plainState (.ok "x") (fun c => .ok c)
        (fun _ => .ok (.vObj [("a", .vNum 7)])) (.ok ()) c6data).state.cache) "a"
        = Chek.lookupF [("a", JVal.vNum 7)] "a" := by
  refine ⟨rfl, rfl, by simp, rfl, rfl, ?_, ?_⟩
  · exact (c6_defaults_merge plainState (.ok "x") (fun c => .ok c)
      (fun _ => .ok (.vObj [("a", .vNum 7)])) c6data [("a", .vNum 7)] "a"
      rfl rfl (by simp) rfl rfl).1
  · exact (c6_defaults_merge plainState (.ok "x") (fun c => .ok c)
      (fun _ => .ok (.vObj [("a", .vNum 7)])) c6data [("a", .vNum 7)] "a"
      rfl rfl (by simp) rfl rfl).2

end KStor

/-- Is the value a JS object in the narrow sense used by the store's own
documents (a plain object)? -/
def isObjJ : JVal → Bool
  | .vObj _ => true
  | _ => false

namespace KStor

/-- Value-level view of one store instance for round-trip reasoning.
Persistence and the serializer are modelled at the value level: `disk` holds
the document produced by decoding the persisted bytes (`JSON.parse` after
`JSON.stringify` is the identity on the JSON documents these claims range
over), `none` meaning the file does not exist. -/
structure Store2 where
  cache : JVal
  disk : Option JVal
  loaded : Bool
  dirty : Bool
  loadedDefaults : Bool
  entrypoint : Option String
  transform : Option (String → JVal → JVal)

/-- Success path of the db getter at the value level (same steps as
`dbGetLoaded`). -/
def read2Loaded (s : Store2) (doc : JVal) : JVal × Store2 :=
  let c1 := shallowAssignObj doc
  let c2 :=
    match s.transform with
    | some fn => if s.loadedDefaults then transformApply fn s.entrypoint c1 else c1
    | none => c1
  (c2, { s with dirty := false, loaded := true })

/-- The db getter at the value level: cached fast path, missing file
(`ENOENT`: fresh empty document, dirty set), or decode of the stored
document. -/
def read2 (s : Store2) : JVal × Store2 :=
  if !s.dirty && s.loaded then (s.cache, s)
  else
    match s.disk with
    | none => (.vObj [], { s with dirty := true })
    | some doc => read2Loaded s doc

/-- The db setter at the value level: `data = data || {}`, persist, replace
the cache, set `dirty`. -/
def write2 (s : Store2) (doc : JVal) : Store2 :=
  let data2 := if jsTruthy doc then doc else .vObj []
  { s with cache := data2, disk := some data2, dirty := true }

/-- `set(key, value)` (kstor.ts lines 428-456, single-key form): read the
db, apply the path write to the normalized key, write the document back. -/
def set2 (s : Store2) (key : String) (v : JVal) : Store2 :=
  write2 (read2 s).2 (Chek.setStr (read2 s).1 (normalizeKey s.entrypoint key) v)

/-- `get(key)` (kstor.ts lines 417-419) at the value level. -/
def get2 (s : Store2) (key : String) : JVal × Store2 :=
  (Chek.getStrU (read2 s).1 (normalizeKey s.entrypoint key), (read2 s).2)

/-- `has(key)` (kstor.ts lines 406-408) at the value level. -/
def has2 (s : Store2) (key : String) : Bool × Store2 :=
  (Chek.hasStr (read2 s).1 (normalizeKey s.entrypoint key), (read2 s).2)

/-- `del(key)` (kstor.ts lines 464-473): read the db, delete the normalized
key, write the document back. -/
def del2 (s : Store2) (key : String) : Store2 :=
  write2 (read2 s).2 (Chek.delStr (read2 s).1 (normalizeKey s.entrypoint key))

theorem jsTruthy_of_isObjJ (x : JVal) (h : isObjJ x = true) : jsTruthy x = true := by
  cases x <;> simp_all [isObjJ, jsTruthy]

theorem shallowAssignObj_of_isObjJ (x : JVal) (h : isObjJ x = true) :
    shallowAssignObj x = x := by
  cases x <;> simp_all [isObjJ, shallowAssignObj]

theorem set_name_isObjJ (root : JVal) (n : String) (pr : List Chek.Seg) (v : JVal) :
    isObjJ (Chek.set root (.name n :: pr) v) = true := by
  cases root with
  | vObj fs =>
    cases h : Chek.lookupF fs n with
    | some c => simp [Chek.set, h, isObjJ]
    | none => simp [Chek.set, h, isObjJ]
  | vUndef => rfl
  | vNull => rfl
  | vBool b => rfl
  | vNum m => rfl
  | vStr t => rfl
  | vDate d => rfl
  | vRegex a b => rfl
  | vArr xs => rfl

theorem del_name_obj_isObjJ (fs : List (String × JVal)) (n : String)
    (pr : List Chek.Seg) :
    isObjJ (Chek.del (.vObj fs) (.name n :: pr)) = true := by
  cases pr with
  | nil => rfl
  | cons q qr => rfl

theorem read2_snd_entrypoint (s : Store2) : (read2 s).2.entrypoint = s.entrypoint := by
  unfold read2
  split
  · rfl
  · cases hd : s.disk with
    | none => rfl
    | some doc => rfl

theorem read2_snd_transform (s : Store2) : (read2 s).2.transform = s.transform := by
  unfold read2
  split
  · rfl
  · cases hd : s.disk with
    | none => rfl
    | some doc => rfl

theorem read2_slow (s : Store2) (d : JVal) (hdirty : s.dirty = true)
    (hdisk : s.disk = some d) (htr : s.transform = none)
    (hobj : isObjJ d = true) : (read2 s).1 = d := by
  unfold read2
  rw [if_neg (by simp [hdirty]), hdisk]
  show (read2Loaded s d).1 = d
  unfold read2Loaded
  rw [htr]
  show shallowAssignObj d = d
  exact shallowAssignObj_of_isObjJ d hobj

theorem store_write_read (s : Store2) (doc' : JVal)
    (htr : s.transform = none) (hobj : isObjJ doc' = true) :
    (read2 (write2 (read2 s).2 doc')).1 = doc'
    ∧ (write2 (read2 s).2 doc').entrypoint = s.entrypoint := by
  constructor
  · apply read2_slow
    · rfl
    · show some (if jsTruthy doc' then doc' else .vObj []) = some doc'
      rw [if_pos (jsTruthy_of_isObjJ doc' hobj)]
    · show (read2 s).2.transform = none
      rw [read2_snd_transform]
      exact htr
    · exact hobj
  · show (read2 s).2.entrypoint = s.entrypoint
    exact read2_snd_entrypoint s

end KStor

namespace KStor

/-- C5: the path round-trip laws.  At the document level: reading the path
just written yields the written value, `has` is true right after `set` and
false right after `delete`.  At the store level the same laws hold through
the write/serialize/reload cycle for any key whose normalized form parses to
a name-headed path (every ordinary dotted key), on a store without a
transform hook; `disk` models the decoded persisted document, serialization
being the identity on the JSON documents involved. -/
theorem c5_roundtrip (D : JVal) (p : List Chek.Seg) (v : JVal)
    (s : Store2) (key : String) (n : String) (pr : List Chek.Seg)
    (fs : List (String × JVal))
    (hv : v ≠ .vUndef) (hp : p ≠ [])
    (htr : s.transform = none)
    (hdoc : (read2 s).1 = .vObj fs)
    (hparse : Chek.parsePath (normalizeKey s.entrypoint key) = some (.name n :: pr)) :
    Chek.get (Chek.set D p v) p = some v
    ∧ Chek.has (Chek.set D p v) p = true
    ∧ Chek.has (Chek.del D p) p = false
    ∧ (get2 (set2 s key v) key).1 = v
    ∧ (has2 (set2 s key v) key).1 = true
    ∧ (has2 (del2 s key) key).1 = false := by
  have hset : Chek.setStr (read2 s).1 (normalizeKey s.entrypoint key) v
      = Chek.set (read2 s).1 (.name n :: pr) v := by
    unfold Chek.setStr
    rw [hparse]
  have hdel : Chek.delStr (read2 s).1 (normalizeKey s.entrypoint key)
      = Chek.del (read2 s).1 (.name n :: pr) := by
    unfold Chek.delStr
    rw [hparse]
  have hobjS := set_name_isObjJ (read2 s).1 n pr v
  have hobjD : isObjJ (Chek.del (read2 s).1 (.name n :: pr)) = true := by
    rw [hdoc]
    exact del_name_obj_isObjJ fs n pr
  obtain ⟨hrS, heS⟩ :=
    store_write_read s (Chek.set (read2 s).1 (.name n :: pr) v) htr hobjS
  obtain ⟨hrD, heD⟩ :=
    store_write_read s (Chek.del (read2 s).1 (.name n :: pr)) htr hobjD
  have eS : set2 s key v
      = write2 (read2 s).2 (Chek.set (read2 s).1 (.name n :: pr) v) := by
    unfold set2
    rw [hset]
  have eD : del2 s key
      = write2 (read2 s).2 (Chek.del (read2 s).1 (.name n :: pr)) := by
    unfold del2
    rw [hdel]
  refine ⟨Chek.get_set p D v hv, ?_, ?_, ?_, ?_, ?_⟩
  · unfold Chek.has
    rw [Chek.get_set p D v hv]
    rfl
  · unfold Chek.has
    rw [Chek.get_del p D hp]
    rfl
  · show Chek.getStrU (read2 (set2 s key v)).1
        (normalizeKey (set2 s key v).entrypoint key) = v
    rw [eS, hrS, heS]
    unfold Chek.getStrU Chek.getStr
    rw [hparse]
    show (Chek.get (Chek.set (read2 s).1 (.name n :: pr) v) (.name n :: pr)).getD .vUndef = v
    rw [Chek.get_set _ _ _ hv]
    rfl
  · show Chek.hasStr (read2 (set2 s key v)).1
        (normalizeKey (set2 s key v).entrypoint key) = true
    rw [eS, hrS, heS]
    unfold Chek.hasStr Chek.getStr
    rw [hparse]
    show (Chek.get (Chek.set (read2 s).1 (.name n :: pr) v) (.name n :: pr)).isSome = true
    rw [Chek.get_set _ _ _ hv]
    rfl
  · show Chek.hasStr (read2 (del2 s key)).1
        (normalizeKey (del2 s key).entrypoint key) = false
    rw [eD, hrD, heD]
    unfold Chek.hasStr Chek.getStr
    rw [hparse]
    show (Chek.get (Chek.del (read2 s).1 (.name n :: pr)) (.name n :: pr)).isSome = false
    rw [Chek.get_del _ _ (by simp)]
    rfl

/-- A loaded, clean store holding `{x: 1}` both in memory and on disk. -/
def store5 : Store2 :=
  ⟨.vObj [("x", .vNum 1)], some (.vObj [("x", .vNum 1)]), true, false, true, none, none⟩

theorem c5_witness :
    (JVal.vNum 7 ≠ JVal.vUndef)
    ∧ ([Chek.Seg.name "a", Chek.Seg.name "b"] ≠ [])
    ∧ store5.transform = none
    ∧ (read2 store5).1 = .vObj [("x", JVal.vNum 1)]
    ∧ Chek.parsePath (normalizeKey store5.entrypoint "a.b")
        = some (.name "a" :: [Chek.Seg.name "b"])
    ∧ Chek.get (Chek.set (.vObj [("x", JVal.vNum 1)])
        [Chek.Seg.name "a", Chek.Seg.name "b"] (.vNum 7))
        [Chek.Seg.name "a", Chek.Seg.name "b"] = some (.vNum 7)
    ∧ Chek.has (Chek.set (.vObj [("x", JVal.vNum 1)])
        [Chek.Seg.name "a", Chek.Seg.name "b"] (.vNum 7))
        [Chek.Seg.name "a", Chek.Seg.name "b"] = true
    ∧ Chek.has (Chek.del (.vObj [("x", JVal.vNum 1)])
        [Chek.Seg.name "a", Chek.Seg.name "b"])
        [Chek.Seg.name "a", Chek.Seg.name "b"] = false
    ∧ (get2 (set2 store5 "a.b" (.vNum 7)) "a.b").1 = .vNum 7
    ∧ (has2 (set2 store5 "a.b" (.vNum 7)) "a.b").1 = true
    ∧ (has2 (del2 store5 "a.b") "a.b").1 = false := by
  have h := c5_roundtrip (.vObj [("x", JVal.vNum 1)])
    [Chek.Seg.name "a", Chek.Seg.name "b"] (.vNum 7) store5 "a.b" "a"
    [Chek.Seg.name "b"] [("x", JVal.vNum 1)]
    (fun hcontra => nomatch hcontra) (fun hcontra => nomatch hcontra)
    rfl rfl rfl
  refine ⟨?_, ?_, ?_, ?_, ?_, ?_, ?_, ?_, ?_, ?_, ?_⟩
  · intro hcontra
    exact nomatch hcontra
  · intro hcontra
    exact nomatch hcontra
  · rfl
  · rfl
  · rfl
  · exact h.1
  · exact h.2.1
  · exact h.2.2.1
  · exact h.2.2.2.1
  · exact h.2.2.2.2.1
  · exact h.2.2.2.2.2

end KStor

/-- `chek.isPlainObject`: a plain object (the query engine dispatches on
this). -/
def isPlainObjectJ (v : JVal) : Bool := isObjJ v

/-- `chek.isObject`: anything of JS type `object` other than `null`
(arrays, dates and regexps included). -/
def isObjectJ : JVal → Bool
  | .vObj _ => true
  | .vArr _ => true
  | .vDate _ => true
  | .vRegex _ _ => true
  | _ => false

/-- `chek.isValue`: neither `undefined` nor `null`. -/
def isValueJ : JVal → Bool
  | .vUndef => false
  | .vNull => false
  | _ => true

/-- Modelled from the spec: `chek.isEmpty` as the row guard uses it ("an
empty or absent row fails the match unconditionally"): an empty object,
array or string. -/
def isEmptyJ : JVal → Bool
  | .vObj [] => true
  | .vArr [] => true
  | .vStr "" => true
  | _ => false

def isStringJ : JVal → Bool
  | .vStr _ => true
  | _ => false

def isArrayJ : JVal → Bool
  | .vArr _ => true
  | _ => false

def isDateJ : JVal → Bool
  | .vDate _ => true
  | _ => false

/-- JS strict equality `===` restricted to this model: primitives compare by
value; arrays, objects, dates and regexps compare by reference, and two
independently produced references are distinct, hence `false` here (the query
engine only ever compares a freshly extracted row value against a separately
supplied comparand). -/
def jsStrictEq : JVal → JVal → Bool
  | .vUndef, .vUndef => true
  | .vNull, .vNull => true
  | .vBool a, .vBool b => a == b
  | .vNum a, .vNum b => a == b
  | .vStr a, .vStr b => a == b
  | _, _ => false

/-- JS `ToNumber` on the fragment of values the claims exercise: numbers,
booleans, `null`, dates, and strings that are plain (optionally negated)
digit runs; everything else is treated as NaN (`none`).  (The full JS
numeric-string grammar is not needed by any claim.) -/
def toNumberOpt : JVal → Option Int
  | .vNum n => some n
  | .vBool b => some (if b then 1 else 0)
  | .vNull => some 0
  | .vDate ms => some ms
  | .vStr s =>
    (match s.toList with
     | [] => some 0
     | '-' :: rest =>
       if !rest.isEmpty && rest.all Char.isDigit then
         some (-(Chek.digitsVal rest : Int))
       else none
     | cs => if cs.all Char.isDigit then some ((Chek.digitsVal cs : Int)) else none)
  | _ => none

/-- JS `<`: lexicographic when both sides are strings, else numeric with NaN
comparing false. -/
def jsLt (a b : JVal) : Bool :=
  match a, b with
  | .vStr x, .vStr y => decide (x < y)
  | _, _ =>
    (match toNumberOpt a, toNumberOpt b with
     | some x, some y => decide (x < y)
     | _, _ => false)

def jsGt (a b : JVal) : Bool := jsLt b a

/-- JS `<=` under the same fragment. -/
def jsLe (a b : JVal) : Bool :=
  match a, b with
  | .vStr x, .vStr y => (x == y) || decide (x < y)
  | _, _ =>
    (match toNumberOpt a, toNumberOpt b with
     | some x, some y => decide (x ≤ y)
     | _, _ => false)

def jsGe (a b : JVal) : Bool := jsLe b a

/-- JS `String(v)` on the fragment the claims exercise (array and date
renderings are placeholders; no claim depends on them). -/
def jsToString : JVal → String
  | .vStr s => s
  | .vNum n => toString n
  | .vBool b => cond b "true" "false"
  | .vNull => "null"
  | .vUndef => "undefined"
  | .vDate ms => "[Date " ++ toString ms ++ "]"
  | .vRegex src flags => "/" ++ src ++ "/" ++ flags
  | .vArr _ => ""
  | .vObj _ => "[object Object]"

/-- `value.split('')`: the one-character strings of a string. -/
def strChars (s : String) : List JVal :=
  s.toList.map (fun c => JVal.vStr c.toString)

def elemsOf : JVal → List JVal
  | .vArr xs => xs
  | _ => []

/-- Modelled from the spec: `chek.containsAny(value, anyOf)` "tests
intersection" — true iff some element of the first list strictly equals some
element of the second. -/
def containsAny (xs ys : List JVal) : Bool :=
  xs.any (fun x => ys.any (fun y => jsStrictEq x y))

/-- The date-to-epoch conversion at the top of `queryValue`. -/
def dateConv : JVal → JVal
  | .vDate ms => .vNum ms
  | v => v

/-- The `$in`/`$nin` comparand coercion: `if (!Array.isArray(filter))
filter = [filter]`, as an element list. -/
def inFilterList (f : JVal) : List JVal :=
  if isArrayJ f then elemsOf f else [f]

/-- The `$in`/`$nin` value coercion: a string becomes its character list
(`value.split('')`), an array its element list. -/
def inValueList (v : JVal) : List JVal :=
  if isStringJ v then strChars (jsToString v) else elemsOf v

namespace KStor

/-- `queryValue(operator, filter, value)` (part_001 lines 456-545), the
operator switch.  `rx source flags input` is the external RegExp collaborator
(`new RegExp(source, flags).test(input)`).  The result is the JS value of the
local `valid`: `none` models the `undefined` that `$in`/`$nin` leave behind
when the row value is neither a string nor an array. -/
def queryValue (rx : String → String → String → Bool) (operator : String)
    (filter value : JVal) : Option Bool :=
  let value := dateConv value
  let filter := dateConv filter
  match operator with
  | "$eq" => some (jsStrictEq value filter)
  | "$ne" => some (!jsStrictEq value filter)
  | "$gt" => some (jsGt value filter)
  | "$lt" => some (jsLt value filter)
  | "$gte" => some (jsGe value filter)
  | "$lte" => some (jsLe value filter)
  | "$in" =>
    if isStringJ value || isArrayJ value then
      some (containsAny (inValueList value) (inFilterList filter))
    else none
  | "$nin" =>
    if isStringJ value || isArrayJ value then
      some (!containsAny (inValueList value) (inFilterList filter))
    else none
  | "$not" =>
    (match filter with
     | .vRegex src flags => some (!rx src flags (jsToString value))
     | _ => some (!jsStrictEq value filter))
  | "$exists" =>
    if jsStrictEq filter (.vBool false) then some (!isValueJ value)
    else some (isValueJ value)
  | "$regexp" =>
    (match filter with
     | .vRegex src flags => some (rx src flags (jsToString value))
     | _ => some (rx (jsToString filter) "i" (jsToString value)))
  | "$like" =>
    (match filter with
     | .vRegex src flags => some (rx src flags (jsToString value))
     | _ => some (rx (".*" ++ jsToString filter ++ ".*") "i" (jsToString value)))
  | _ => some false

/-- One normalized query entry: `{operator, comparator, logical}`. -/
structure QEntry where
  operator : String
  comparator : JVal
  logical : String

/-- The normalized query: field path → ordered entry list, in insertion
order. -/
abbrev Normalized := List (String × List QEntry)

/-- `normalized[key].push(tmp)`, creating the bucket if needed. -/
def npush : Normalized → String → QEntry → Normalized
  | [], key, e => [(key, [e])]
  | (k, es) :: rest, key, e =>
    if k == key then (k, es ++ [e]) :: rest else (k, es) :: npush rest key e

/-- `mergeNormalized(key, obj, logical?)`: a non-object comparand becomes
`{$eq: obj}`; each operator of the object becomes one entry under the
(defaulted `$and`) logical group. -/
def mergeNormalized (acc : Normalized) (key : String) (obj : JVal)
    (logical : Option String) : Normalized :=
  let obj := if isPlainObjectJ obj then obj else .vObj [("$eq", obj)]
  match obj with
  | .vObj fields =>
    fields.foldl (fun acc2 kv => npush acc2 key ⟨kv.1, kv.2, logical.getD "$and"⟩) acc
  | _ => acc

/-- `normalized[n] = obj[n]` or concat, used by `mergeNested`. -/
def nconcat : Normalized → String → List QEntry → Normalized
  | [], key, es => [(key, es)]
  | (k, l) :: rest, key, es =>
    if k == key then (k, l ++ es) :: rest else (k, l) :: nconcat rest key es

/-- `mergeNested(obj)`: fold a recursively normalized block into the
accumulator. -/
def mergeNested (acc : Normalized) (sub : Normalized) : Normalized :=
  sub.foldl (fun acc2 pe => nconcat acc2 pe.1 pe.2) acc

/-- The logical combinators. -/
def logicals : List String := ["$and", "$or", "$nor"]

/-- `exp.$and` etc: property access that yields `undefined` off objects. -/
def objGetU (v : JVal) (k : String) : JVal :=
  match v with
  | .vObj fs => (Chek.lookupF fs k).getD .vUndef
  | _ => (.vUndef)

/-- `keys(exp)[0]` with its value; `none` when the object has no keys. -/
def firstKeyVal : JVal → Option (String × JVal)
  | .vObj (p :: _) => some p
  | _ => none

mutual

/-- `queryNormalize(query)` (part_001 lines 553-638): reject non-objects;
logical keys must hold arrays whose elements are either nested `$and`/`$or`
blocks (recursively normalized and merged) or single field expressions;
plain field keys become implicit `$and` members.  (The source's inner
re-check of `contains(logicals, k)` in the else-branch is dead code — the
outer test already failed — and is omitted.) -/
def queryNormalize (q : JVal) : Except JErr Normalized :=
  match q with
  | .vObj fields => queryNormalizeFields fields []
  | _ => .error ⟨"Error", "", "Normalize query expected type of object."⟩
termination_by sizeOf q
decreasing_by all_goals (simp_wf <;> omega)

/-- The `for (const k in query)` loop of `queryNormalize`. -/
def queryNormalizeFields (fields : List (String × JVal)) (acc : Normalized) :
    Except JErr Normalized :=
  match fields with
  | [] => .ok acc
  | (k, exps) :: rest =>
    if logicals.contains k then
      match exps with
      | .vArr arr =>
        (match queryNormalizeExps k arr acc with
         | .error e => .error e
         | .ok acc2 => queryNormalizeFields rest acc2)
      | _ => .error ⟨"Error", "", "Logical query expected array."⟩
    else
      queryNormalizeFields rest (mergeNormalized acc k exps none)
termination_by sizeOf fields
decreasing_by all_goals (simp_wf <;> omega)

/-- The `exps.forEach(exp => ...)` loop over one logical key's array. -/
def queryNormalizeExps (k : String) (arr : List JVal) (acc : Normalized) :
    Except JErr Normalized :=
  match arr with
  | [] => .ok acc
  | exp :: rest =>
    if jsTruthy (objGetU exp "$and") || jsTruthy (objGetU exp "$or") then
      match queryNormalize exp with
      | .error e => .error e
      | .ok sub => queryNormalizeExps k rest (mergeNested acc sub)
    else
      match firstKeyVal exp with
      | some pv => queryNormalizeExps k rest (mergeNormalized acc pv.1 pv.2 (some k))
      | none => queryNormalizeExps k rest (mergeNormalized acc "undefined" .vUndef (some k))
termination_by sizeOf arr
decreasing_by all_goals (simp_wf <;> omega)

end

end KStor

namespace KStor

/-- The three loop-carried locals of `queryRow` (`validAnd`, `validOr`,
`validNor`), each a JS variable that is `undefined` until first assigned:
`none` is `undefined`, `some b` a stored boolean. -/
structure RowState where
  validAnd : Option Bool
  validOr : Option Bool
  validNor : Option Bool

/-- One iteration of `queryRow`'s inner loop (part_001 lines 663-685): skip
when this entry's group is already decided, otherwise evaluate the operator
against the row value at the entry's property path and store the result in
the group's local. -/
def stepEntry (rx : String → String → String → Bool) (row : JVal)
    (st : RowState) (prop : String) (e : QEntry) : RowState :=
  let isOr := e.logical == "$or"
  let isNor := e.logical == "$nor"
  let isAnd := e.logical == "$and"
  if isOr && (st.validOr == some true) then st
  else if isAnd && (st.validAnd == some false) then st
  else if isNor && (st.validNor == some true) then st
  else
    let value := Chek.getStrU row prop
    let isMatch := queryValue rx e.operator e.comparator value
    if isOr then { st with validOr := isMatch }
    else if isAnd then { st with validAnd := isMatch }
    else if isNor then { st with validNor := isMatch }
    else st

/-- The two nested loops of `queryRow` over the normalized query. -/
def queryRowState (rx : String → String → String → Bool) (row : JVal)
    (nq : Normalized) : RowState :=
  nq.foldl (fun st pe => pe.2.foldl (fun st2 e => stepEntry rx row st2 pe.1 e) st)
    ⟨none, none, none⟩

/-- `queryRow(key, row, query)` (part_001 lines 647-694): an absent or empty
row fails; otherwise normalize the query (its errors propagate), run the
loops, and include the row iff `(validAnd || validOr) && !validNor` is
truthy. -/
def queryRow (rx : String → String → String → Bool) (key : String)
    (row : JVal) (q : JVal) : Except JErr Bool :=
  if !(isValueJ row) || isEmptyJ row then .ok false
  else
    match queryNormalize q with
    | .error e => .error e
    | .ok nq =>
      let st := queryRowState rx row nq
      .ok ((st.validAnd == some true || st.validOr == some true)
        && !(st.validNor == some true))

/-- The `for (const k in collection)` loop of `query` (part_001 lines
729-763), with the `_skipped`/`_taken` counters: a skipped row `continue`s;
otherwise a non-object filter passes the row through and an object filter
consults `queryRow` (errors propagate); an included row bumps `_taken`, and
the loop breaks once `take` is reached (checked at the end of every
non-skipped iteration). -/
def queryLoopGo (rx : String → String → String → Bool) (q : Option JVal)
    (skip take : Option Nat) :
    List (String × JVal) → Nat → Nat → Except JErr (List (String × JVal))
  | [], _, _ => .ok []
  | (k, row) :: rest, skipped, taken =>
    match skip with
    | some sk =>
      if skipped + 1 ≤ sk then queryLoopGo rx q skip take rest (skipped + 1) taken
      else
        (match (match q with
                | some qq => if isPlainObjectJ qq then queryRow rx k row qq else .ok true
                | none => .ok true) with
         | .error e => .error e
         | .ok m =>
           if take.isSome && decide (take.getD 0 ≤ (if m then taken + 1 else taken)) then
             .ok (if m then [(k, row)] else [])
           else
             (match queryLoopGo rx q skip take rest (skipped + 1)
                 (if m then taken + 1 else taken) with
              | .error e => .error e
              | .ok tail => .ok ((if m then [(k, row)] else []) ++ tail)))
    | none =>
      (match (match q with
              | some qq => if isPlainObjectJ qq then queryRow rx k row qq else .ok true
              | none => .ok true) with
       | .error e => .error e
       | .ok m =>
         if take.isSome && decide (take.getD 0 ≤ (if m then taken + 1 else taken)) then
           .ok (if m then [(k, row)] else [])
         else
           (match queryLoopGo rx q skip take rest skipped
               (if m then taken + 1 else taken) with
            | .error e => .error e
            | .ok tail => .ok ((if m then [(k, row)] else []) ++ tail)))

/-- Collection resolution at the head of `query` (part_001 lines 712-721):
with an entrypoint, read from `this._cache` under the (star-exempted)
normalized key; without one, `*` is the cache and any other key goes through
`this.get`. -/
def resolveCollection (s : Store2) (key : String) : JVal :=
  match s.entrypoint with
  | some ep =>
    if key == "*" then Chek.getStrU s.cache ep
    else Chek.getStrU s.cache (normalizeKey s.entrypoint key)
  | none =>
    if key == "*" then s.cache else (get2 s key).1

/-- The rows `for..in` enumerates over the collection value. -/
def rowsOf : JVal → List (String × JVal)
  | .vObj fs => fs
  | .vArr xs => indexedFields xs 0
  | .vStr s => indexedFields (s.toList.map (fun c => JVal.vStr c.toString)) 0
  | _ => []

/-- `query(key, query?, skip?, take?)` (part_001 lines 708-767): resolve the
collection, return `{}` unless it is a truthy object, and run the row loop.
The result is the ordered key/row list accumulated into the result object. -/
def query (rx : String → String → String → Bool) (s : Store2) (key : String)
    (q : Option JVal) (skip take : Option Nat) :
    Except JErr (List (String × JVal)) :=
  if !(jsTruthy (resolveCollection s key) && isObjectJ (resolveCollection s key))
  then .ok []
  else queryLoopGo rx q skip take (rowsOf (resolveCollection s key)) 0 0

end KStor


namespace KStor

/-- A concrete regular-expression collaborator for witnesses (no pattern
matches anything); the `$in`/`$nin` branches never consult it. -/
def rxFalse : String → String → String → Bool := fun _ _ _ => false

/-- C7 (amended): after the date conversion, `$in` and `$nin` evaluate the
coerced-list intersection only when the row value is a string or an array:
there `$in` is true and `$nin` false exactly when the value list and the
comparand list intersect; for every other value both operators yield
`undefined` (falsy), regardless of the comparand. -/
theorem c7_in_nin (rx : String → String → String → Bool) (f v : JVal) :
    ((isStringJ (dateConv v) || isArrayJ (dateConv v)) = false →
      queryValue rx "$in" f v = none ∧ queryValue rx "$nin" f v = none)
    ∧ ((isStringJ (dateConv v) || isArrayJ (dateConv v)) = true →
      queryValue rx "$in" f v
          = some (containsAny (inValueList (dateConv v)) (inFilterList (dateConv f)))
        ∧ queryValue rx "$nin" f v
          = some (!containsAny (inValueList (dateConv v)) (inFilterList (dateConv f))))
    ∧ (containsAny (inValueList (dateConv v)) (inFilterList (dateConv f)) = true
        ↔ ∃ x ∈ inValueList (dateConv v), ∃ y ∈ inFilterList (dateConv f),
            jsStrictEq x y = true) := by
  refine ⟨?_, ?_, ?_⟩
  · intro h
    constructor
    · show (if (isStringJ (dateConv v) || isArrayJ (dateConv v)) = true
            then some (containsAny (inValueList (dateConv v)) (inFilterList (dateConv f)))
            else none) = none
      rw [if_neg (by simp [h])]
    · show (if (isStringJ (dateConv v) || isArrayJ (dateConv v)) = true
            then some (!containsAny (inValueList (dateConv v)) (inFilterList (dateConv f)))
            else none) = none
      rw [if_neg (by simp [h])]
  · intro h
    constructor
    · show (if (isStringJ (dateConv v) || isArrayJ (dateConv v)) = true
            then some (containsAny (inValueList (dateConv v)) (inFilterList (dateConv f)))
            else none) = _
      rw [if_pos h]
    · show (if (isStringJ (dateConv v) || isArrayJ (dateConv v)) = true
            then some (!containsAny (inValueList (dateConv v)) (inFilterList (dateConv f)))
            else none) = _
      rw [if_pos h]
  · simp [containsAny, List.any_eq_true]

/-- C7 counterexample: for the number value `5` — neither a string nor an
array — the claim's intersection rule demands `$in (comparand 5)` be true
(`[5]` intersects `[5]`) and `$nin (comparand 3)` be true (`[5]` does not
intersect `[3]`), yet the code leaves `valid` undefined (falsy) for both. -/
theorem c7_counterexample :
    queryValue rxFalse "$in" (.vNum 5) (.vNum 5) = none
    ∧ queryValue rxFalse "$nin" (.vNum 3) (.vNum 5) = none
    ∧ containsAny [JVal.vNum 5] [JVal.vNum 5] = true
    ∧ containsAny [JVal.vNum 5] [JVal.vNum 3] = false :=
  ⟨rfl, rfl, rfl, rfl⟩

theorem c7_witness :
    ((isStringJ (dateConv (JVal.vNum 5)) || isArrayJ (dateConv (JVal.vNum 5))) = false)
    ∧ queryValue rxFalse "$in" (.vNum 5) (.vNum 5) = none
    ∧ queryValue rxFalse "$nin" (.vNum 5) (.vNum 5) = none
    ∧ ((isStringJ (dateConv (JVal.vArr [JVal.vNum 2]))
        || isArrayJ (dateConv (JVal.vArr [JVal.vNum 2]))) = true)
    ∧ queryValue rxFalse "$in" (.vNum 2) (.vArr [.vNum 2])
        = some (containsAny (inValueList (dateConv (JVal.vArr [JVal.vNum 2])))
            (inFilterList (dateConv (JVal.vNum 2))))
    ∧ queryValue rxFalse "$nin" (.vNum 2) (.vArr [.vNum 2])
        = some (!containsAny (inValueList (dateConv (JVal.vArr [JVal.vNum 2])))
            (inFilterList (dateConv (JVal.vNum 2)))) := by
  refine ⟨rfl, ?_, ?_, rfl, ?_, ?_⟩
  · exact ((c7_in_nin rxFalse (.vNum 5) (.vNum 5)).1 rfl).1
  · exact ((c7_in_nin rxFalse (.vNum 5) (.vNum 5)).1 rfl).2
  · exact ((c7_in_nin rxFalse (.vNum 2) (.vArr [.vNum 2])).2.1 rfl).1
  · exact ((c7_in_nin rxFalse (.vNum 2) (.vArr [.vNum 2])).2.1 rfl).2

end KStor

namespace KStor

/-- The normalized entries in evaluation order, each tagged with its field
path (outer loop: fields in insertion order; inner loop: entry order). -/
def flattenNQ : Normalized → List (String × QEntry)
  | [] => []
  | (prop, es) :: rest => es.map (fun e => (prop, e)) ++ flattenNQ rest

/-- The operator evaluation `queryRow` performs for one entry. -/
def evalEntry (rx : String → String → String → Bool) (row : JVal)
    (pe : String × QEntry) : Option Bool :=
  queryValue rx pe.2.operator pe.2.comparator (Chek.getStrU row pe.1)

/-- The entries of one logical group, in evaluation order. -/
def entriesOf (nq : Normalized) (lg : String) : List (String × QEntry) :=
  (flattenNQ nq).filter (fun pe => pe.2.logical == lg)

/-- How `validAnd` absorbs one evaluation result: a stored `false` is final
(the skip guard `validAnd === false`), anything else is overwritten. -/
def andStep (st v : Option Bool) : Option Bool :=
  if st == some false then st else v

/-- How `validOr` (and `validNor`) absorb one evaluation result: a stored
`true` is final, anything else is overwritten. -/
def orStep (st v : Option Bool) : Option Bool :=
  if st == some true then st else v

/-- The `$and` side of the final rule: the `$and` entries' evaluations leave
`validAnd === true`.  With *no* `$and` entries this is `false` (`validAnd`
stays `undefined`). -/
def andSatisfied (rx : String → String → String → Bool) (row : JVal)
    (nq : Normalized) : Bool :=
  ((entriesOf nq "$and").map (evalEntry rx row)).foldl andStep none == some true

/-- The `$or` side of the final rule; `false` when there are no `$or`
entries. -/
def orSatisfied (rx : String → String → String → Bool) (row : JVal)
    (nq : Normalized) : Bool :=
  ((entriesOf nq "$or").map (evalEntry rx row)).foldl orStep none == some true

/-- The `$nor` side of the final rule. -/
def norSatisfied (rx : String → String → String → Bool) (row : JVal)
    (nq : Normalized) : Bool :=
  ((entriesOf nq "$nor").map (evalEntry rx row)).foldl orStep none == some true

/-- `stepEntry` uncurried over a tagged entry. -/
def stepEntryP (rx : String → String → String → Bool) (row : JVal)
    (st : RowState) (pe : String × QEntry) : RowState :=
  stepEntry rx row st pe.1 pe.2

theorem stepEntry_and (rx : String → String → String → Bool) (row : JVal)
    (st : RowState) (prop : String) (e : QEntry) (h : e.logical = "$and") :
    stepEntry rx row st prop e
      = { st with validAnd := (andStep st.validAnd
            (queryValue rx e.operator e.comparator (Chek.getStrU row prop))) } := by
  unfold stepEntry andStep
  simp only [h]
  by_cases hA : (st.validAnd == some false) = true
  · simp [hA]
  · simp [hA]

theorem stepEntry_or (rx : String → String → String → Bool) (row : JVal)
    (st : RowState) (prop : String) (e : QEntry) (h : e.logical = "$or") :
    stepEntry rx row st prop e
      = { st with validOr := (orStep st.validOr
            (queryValue rx e.operator e.comparator (Chek.getStrU row prop))) } := by
  unfold stepEntry orStep
  simp only [h]
  by_cases hO : (st.validOr == some true) = true
  · simp [hO]
  · simp [hO]

theorem stepEntry_nor (rx : String → String → String → Bool) (row : JVal)
    (st : RowState) (prop : String) (e : QEntry) (h : e.logical = "$nor") :
    stepEntry rx row st prop e
      = { st with validNor := (orStep st.validNor
            (queryValue rx e.operator e.comparator (Chek.getStrU row prop))) } := by
  unfold stepEntry orStep
  simp only [h]
  by_cases hN : (st.validNor == some true) = true
  · simp [hN]
  · simp [hN]

theorem stepEntry_other (rx : String → String → String → Bool) (row : JVal)
    (st : RowState) (prop : String) (e : QEntry)
    (hA : (e.logical == "$and") = false) (hO : (e.logical == "$or") = false)
    (hN : (e.logical == "$nor") = false) :
    stepEntry rx row st prop e = st := by
  unfold stepEntry
  simp [hA, hO, hN]

theorem foldl_map_entries (rx : String → String → String → Bool) (row : JVal)
    (prop : String) (es : List QEntry) (st : RowState) :
    (es.map (fun e => (prop, e))).foldl (stepEntryP rx row) st
      = es.foldl (fun st2 e => stepEntry rx row st2 prop e) st := by
  induction es generalizing st with
  | nil => rfl
  | cons e rest ih =>
    simp only [List.map_cons, List.foldl_cons]
    exact ih _

theorem queryRowState_eq_flat (rx : String → String → String → Bool)
    (row : JVal) (nq : Normalized) :
    queryRowState rx row nq
      = (flattenNQ nq).foldl (stepEntryP rx row) ⟨none, none, none⟩ := by
  unfold queryRowState
  generalize (⟨none, none, none⟩ : RowState) = st
  induction nq generalizing st with
  | nil => rfl
  | cons pe rest ih =>
    obtain ⟨prop, es⟩ := pe
    simp only [List.foldl_cons, flattenNQ, List.foldl_append, foldl_map_entries]
    exact ih _

theorem fold_char (rx : String → String → String → Bool) (row : JVal)
    (L : List (String × QEntry)) (st : RowState) :
    (L.foldl (stepEntryP rx row) st).validAnd
      = ((L.filter (fun pe => pe.2.logical == "$and")).map (evalEntry rx row)).foldl
          andStep st.validAnd
    ∧ (L.foldl (stepEntryP rx row) st).validOr
      = ((L.filter (fun pe => pe.2.logical == "$or")).map (evalEntry rx row)).foldl
          orStep st.validOr
    ∧ (L.foldl (stepEntryP rx row) st).validNor
      = ((L.filter (fun pe => pe.2.logical == "$nor")).map (evalEntry rx row)).foldl
          orStep st.validNor := by
  induction L generalizing st with
  | nil => exact ⟨rfl, rfl, rfl⟩
  | cons pe rest ih =>
    obtain ⟨prop, e⟩ := pe
    simp only [List.foldl_cons, List.filter_cons]
    by_cases hA : (e.logical == "$and") = true
    · have hAe : e.logical = "$and" := by simpa using hA
      have hO : (e.logical == "$or") = false := by simp [hAe]
      have hN : (e.logical == "$nor") = false := by simp [hAe]
      rw [show stepEntryP rx row st (prop, e)
          = { st with validAnd := andStep st.validAnd (evalEntry rx row (prop, e)) }
        from stepEntry_and rx row st prop e hAe]
      simp only [hA, hO, hN, if_true, if_false, List.map_cons, List.foldl_cons]
      exact ih _
    · by_cases hO : (e.logical == "$or") = true
      · have hOe : e.logical = "$or" := by simpa using hO
        have hN : (e.logical == "$nor") = false := by simp [hOe]
        rw [show stepEntryP rx row st (prop, e)
            = { st with validOr := orStep st.validOr (evalEntry rx row (prop, e)) }
          from stepEntry_or rx row st prop e hOe]
        simp only [hA, hO, hN, if_true, if_false, List.map_cons, List.foldl_cons]
        exact ih _
      · by_cases hN : (e.logical == "$nor") = true
        · have hNe : e.logical = "$nor" := by simpa using hN
          rw [show stepEntryP rx row st (prop, e)
              = { st with validNor := orStep st.validNor (evalEntry rx row (prop, e)) }
            from stepEntry_nor rx row st prop e hNe]
          simp only [hA, hO, hN, if_true, if_false, List.map_cons, List.foldl_cons]
          exact ih _
        · rw [show stepEntryP rx row st (prop, e) = st
            from stepEntry_other rx row st prop e (by simpa using hA)
              (by simpa using hO) (by simpa using hN)]
          simp only [hA, hO, hN, if_false]
          exact ih _

end KStor

namespace KStor

/-- C1 (amended): for every query that normalizes and every valid non-empty
row, `queryRow`'s decision is `(andSatisfied OR orSatisfied) AND NOT
norSatisfied` — where `andSatisfied` defaults to FALSE when the normalized
query has no `$and` entries (the local `validAnd` stays `undefined`, which
is falsy), and `orSatisfied` defaults to false with no `$or` entries.  In
particular a query consisting only of `$nor` entries can never include a
row. -/
theorem c1_queryRow_rule (rx : String → String → String → Bool) (key : String)
    (row q : JVal) (nq : Normalized)
    (hrow : (!(isValueJ row) || isEmptyJ row) = false)
    (hn : queryNormalize q = .ok nq) :
    queryRow rx key row q
      = .ok ((andSatisfied rx row nq || orSatisfied rx row nq)
          && !(norSatisfied rx row nq)) := by
  have hflat := queryRowState_eq_flat rx row nq
  have hchar := fold_char rx row (flattenNQ nq) ⟨none, none, none⟩
  unfold queryRow
  rw [if_neg (by simp [hrow]), hn]
  show Except.ok (((queryRowState rx row nq).validAnd == some true
        || (queryRowState rx row nq).validOr == some true)
      && !((queryRowState rx row nq).validNor == some true))
    = Except.ok ((andSatisfied rx row nq || orSatisfied rx row nq)
        && !(norSatisfied rx row nq))
  rw [hflat, hchar.1, hchar.2.1, hchar.2.2]
  rfl

/-- The claim's version of the final inclusion rule, differing from the code
only in the default: `andSatisfied` is taken to be true when the query has
no `$and`-group entries. -/
def claimRowDecision (rx : String → String → String → Bool) (row : JVal)
    (nq : Normalized) : Bool :=
  ((if (entriesOf nq "$and").isEmpty then true else andSatisfied rx row nq)
    || orSatisfied rx row nq) && !(norSatisfied rx row nq)

/-- C1 counterexample: for the query `{$nor: [{a: {$eq: 1}}]}` and the row
`{a: 2}` — no `$and` or `$or` entries, and no `$nor` entry evaluating true —
the claim's rule (default-true `andSatisfied`) includes the row, but the
code returns falsy (`validAnd` and `validOr` are both `undefined`), so the
row is excluded. -/
theorem c1_counterexample :
    queryNormalize (.vObj [("$nor", .vArr [.vObj [("a", .vObj [("$eq", .vNum 1)])]])])
      = .ok [("a", [⟨"$eq", .vNum 1, "$nor"⟩])]
    ∧ queryRow rxFalse "r" (.vObj [("a", .vNum 2)])
        (.vObj [("$nor", .vArr [.vObj [("a", .vObj [("$eq", .vNum 1)])]])])
      = .ok false
    ∧ claimRowDecision rxFalse (.vObj [("a", .vNum 2)])
        [("a", [⟨"$eq", .vNum 1, "$nor"⟩])] = true := by
  have hn : queryNormalize (.vObj [("$nor", .vArr [.vObj [("a", .vObj [("$eq", .vNum 1)])]])])
      = .ok [("a", [⟨"$eq", .vNum 1, "$nor"⟩])] := by
    simp [queryNormalize, queryNormalizeFields, queryNormalizeExps, mergeNormalized,
      npush, logicals, objGetU, firstKeyVal, jsTruthy, isPlainObjectJ, isObjJ,
      Chek.lookupF, mergeNested]
  refine ⟨hn, ?_, ?_⟩
  · simp only [queryRow, hn]
    rfl
  · rfl

theorem c1_witness :
    ((!(isValueJ (JVal.vObj [("a", JVal.vNum 2)]))
      || isEmptyJ (JVal.vObj [("a", JVal.vNum 2)])) = false)
    ∧ queryNormalize (.vObj [("a", .vObj [("$eq", .vNum 2)])])
        = .ok [("a", [⟨"$eq", .vNum 2, "$and"⟩])]
    ∧ queryRow rxFalse "r" (.vObj [("a", .vNum 2)])
        (.vObj [("a", .vObj [("$eq", .vNum 2)])])
      = .ok ((andSatisfied rxFalse (.vObj [("a", .vNum 2)])
            [("a", [⟨"$eq", .vNum 2, "$and"⟩])]
          || orSatisfied rxFalse (.vObj [("a", .vNum 2)])
            [("a", [⟨"$eq", .vNum 2, "$and"⟩])])
        && !(norSatisfied rxFalse (.vObj [("a", .vNum 2)])
            [("a", [⟨"$eq", .vNum 2, "$and"⟩])])) := by
  have hn : queryNormalize (.vObj [("a", .vObj [("$eq", .vNum 2)])])
      = .ok [("a", [⟨"$eq", .vNum 2, "$and"⟩])] := by
    simp [queryNormalize, queryNormalizeFields, queryNormalizeExps, mergeNormalized,
      npush, logicals, objGetU, firstKeyVal, jsTruthy, isPlainObjectJ, isObjJ,
      Chek.lookupF, mergeNested]
  exact ⟨rfl, hn, c1_queryRow_rule rxFalse "r" _ _ _ rfl hn⟩

end KStor


namespace KStor

/-- How many leading rows the skip counter discards when it currently reads
`skipped`. -/
def dropCount (skip : Option Nat) (skipped : Nat) : Nat :=
  match skip with
  | none => 0
  | some sk => sk - skipped

/-- The rows the take counter still lets through when it currently reads
`taken` (the loop checks `_taken >= take` only after including a row, so
even `take = 0` lets one row through). -/
def takePart (take : Option Nat) (taken : Nat) (r : List (String × JVal)) :
    List (String × JVal) :=
  match take with
  | none => r
  | some t => r.take (max (t - taken) 1)

/-- The skip/take-bounded front of the collection that a pass-through query
returns. -/
def boundedRows (rows : List (String × JVal)) (skip take : Option Nat) :
    List (String × JVal) :=
  takePart take 0 (rows.drop (dropCount skip 0))

theorem takePart_none (taken : Nat) (r : List (String × JVal)) :
    takePart none taken r = r := rfl

theorem takePart_some (t taken : Nat) (r : List (String × JVal)) :
    takePart (some t) taken r = r.take (max (t - taken) 1) := rfl

theorem dropCount_some (sk skipped : Nat) :
    dropCount (some sk) skipped = sk - skipped := rfl

theorem step_passthrough (rx : String → String → String → Bool)
    (skip take : Option Nat) (k : String) (row : JVal)
    (rest : List (String × JVal)) (skipped taken : Nat)
    (hrec : queryLoopGo rx none skip take rest skipped (taken + 1)
        = .ok (takePart take (taken + 1) rest)) :
    (if take.isSome && decide (take.getD 0 ≤ taken + 1) then
        (Except.ok [(k, row)] : Except JErr (List (String × JVal)))
      else
        match queryLoopGo rx none skip take rest skipped (taken + 1) with
        | .error e => .error e
        | .ok tail => .ok ((k, row) :: tail))
      = .ok (takePart take taken ((k, row) :: rest)) := by
  by_cases ht : (take.isSome && decide (take.getD 0 ≤ taken + 1)) = true
  · rw [if_pos ht]
    cases take with
    | none => exact absurd ht (by simp)
    | some t =>
      have htle : t ≤ taken + 1 := by simpa using ht
      have hmax : max (t - taken) 1 = 1 := by omega
      rw [takePart_some, hmax]
      rfl
  · rw [if_neg ht, hrec]
    cases take with
    | none => rfl
    | some t =>
      have htgt : taken + 1 < t := by
        by_contra hc
        refine ht ?_
        simp only [Option.isSome_some, Bool.true_and, decide_eq_true_eq, Option.getD_some]
        omega
      have h1 : max (t - (taken + 1)) 1 = t - (taken + 1) := by omega
      have h2 : max (t - taken) 1 = (t - (taken + 1)) + 1 := by omega
      rw [takePart_some, takePart_some, h1, h2, List.take_succ_cons]

theorem loop_passthrough (rx : String → String → String → Bool)
    (skip take : Option Nat) (rows : List (String × JVal)) :
    ∀ skipped taken,
      queryLoopGo rx none skip take rows skipped taken
        = .ok (takePart take taken (rows.drop (dropCount skip skipped))) := by
  induction rows with
  | nil =>
    intro skipped taken
    rw [List.drop_nil]
    cases take with
    | none => rfl
    | some t =>
      rw [takePart_some, List.take_nil]
      rfl
  | cons kr rest ih =>
    obtain ⟨k, row⟩ := kr
    intro skipped taken
    cases skip with
    | some sk =>
      by_cases hs : skipped + 1 ≤ sk
      · rw [show queryLoopGo rx none (some sk) take ((k, row) :: rest) skipped taken
            = queryLoopGo rx none (some sk) take rest (skipped + 1) taken from by
          show (if skipped + 1 ≤ sk then
                  queryLoopGo rx none (some sk) take rest (skipped + 1) taken
                else _) = _
          rw [if_pos hs]]
        rw [ih (skipped + 1) taken]
        have h1 : dropCount (some sk) skipped = dropCount (some sk) (skipped + 1) + 1 := by
          rw [dropCount_some, dropCount_some]
          omega
        rw [h1, List.drop_succ_cons]
      · have hd0 : dropCount (some sk) skipped = 0 := by
          rw [dropCount_some]
          omega
        rw [hd0, List.drop_zero]
        show (if skipped + 1 ≤ sk then
                queryLoopGo rx none (some sk) take rest (skipped + 1) taken
              else
                if take.isSome && decide (take.getD 0 ≤ taken + 1) then
                  Except.ok [(k, row)]
                else
                  match queryLoopGo rx none (some sk) take rest (skipped + 1) (taken + 1) with
                  | .error e => .error e
                  | .ok tail => .ok ((k, row) :: tail))
            = .ok (takePart take taken ((k, row) :: rest))
        rw [if_neg hs]
        have hd1 : dropCount (some sk) (skipped + 1) = 0 := by
          rw [dropCount_some]
          omega
        have hrec := ih (skipped + 1) (taken + 1)
        rw [hd1, List.drop_zero] at hrec
        exact step_passthrough rx (some sk) take k row rest (skipped + 1) taken hrec
    | none =>
      show (if take.isSome && decide (take.getD 0 ≤ taken + 1) then
              Except.ok [(k, row)]
            else
              match queryLoopGo rx none none take rest skipped (taken + 1) with
              | .error e => .error e
              | .ok tail => .ok ((k, row) :: tail))
          = .ok (takePart take taken (((k, row) :: rest).drop (dropCount none skipped)))
      have hrec := ih skipped (taken + 1)
      show _ = Except.ok (takePart take taken ((k, row) :: rest))
      exact step_passthrough rx none take k row rest skipped taken hrec

theorem queryRow_emptyFilter (rx : String → String → String → Bool)
    (k : String) (row : JVal) :
    queryRow rx k row (.vObj []) = .ok false := by
  unfold queryRow
  by_cases h : (!(isValueJ row) || isEmptyJ row) = true
  · rw [if_pos h]
  · rw [if_neg h]
    have hn : queryNormalize (.vObj []) = .ok ([] : Normalized) := by
      simp [queryNormalize, queryNormalizeFields]
    rw [hn]
    rfl

theorem loop_emptyFilter (rx : String → String → String → Bool)
    (skip take : Option Nat) (rows : List (String × JVal)) :
    ∀ skipped taken,
      queryLoopGo rx (some (.vObj [])) skip take rows skipped taken = .ok [] := by
  induction rows with
  | nil =>
    intro skipped taken
    rfl
  | cons kr rest ih =>
    obtain ⟨k, row⟩ := kr
    intro skipped taken
    have hstep : ∀ skipped2,
        (match queryRow rx k row (.vObj []) with
         | .error e => (.error e : Except JErr (List (String × JVal)))
         | .ok m =>
           if take.isSome && decide (take.getD 0 ≤ (if m then taken + 1 else taken)) then
             .ok (if m then [(k, row)] else [])
           else
             (match queryLoopGo rx (some (.vObj [])) skip take rest skipped2
                 (if m then taken + 1 else taken) with
              | .error e => .error e
              | .ok tail => .ok ((if m then [(k, row)] else []) ++ tail)))
        = .ok [] := by
      intro skipped2
      rw [queryRow_emptyFilter rx k row]
      show (if take.isSome && decide (take.getD 0 ≤ taken) then
              (Except.ok [] : Except JErr (List (String × JVal)))
            else
              match queryLoopGo rx (some (.vObj [])) skip take rest skipped2 taken with
              | .error e => .error e
              | .ok tail => .ok ([] ++ tail))
          = .ok []
      by_cases ht : (take.isSome && decide (take.getD 0 ≤ taken)) = true
      · rw [if_pos ht]
      · rw [if_neg ht, ih skipped2 taken]
        rfl
    cases skip with
    | some sk =>
      show (if skipped + 1 ≤ sk then
              queryLoopGo rx (some (.vObj [])) (some sk) take rest (skipped + 1) taken
            else
              match queryRow rx k row (.vObj []) with
              | .error e => .error e
              | .ok m =>
                if take.isSome && decide (take.getD 0 ≤ (if m then taken + 1 else taken)) then
                  .ok (if m then [(k, row)] else [])
                else
                  match queryLoopGo rx (some (.vObj [])) (some sk) take rest (skipped + 1)
                      (if m then taken + 1 else taken) with
                  | .error e => .error e
                  | .ok tail => .ok ((if m then [(k, row)] else []) ++ tail))
          = .ok []
      by_cases hs : skipped + 1 ≤ sk
      · rw [if_pos hs]
        exact ih (skipped + 1) taken
      · rw [if_neg hs]
        exact hstep (skipped + 1)
    | none =>
      exact hstep skipped

end KStor

namespace KStor

/-- C2 (amended): over any resolved collection, a query with an *absent*
(non-object) filter returns the full collection bounded by skip and take —
the rows in original key order, minus the first `skip`, cut after the first
`max take 1` kept rows (the take check runs only after a row is included, so
`take = 0` still yields one row) — while the *empty-object* filter `{}` is a
plain object, is routed through `queryRow`, sets no group flag and therefore
returns no rows at all. -/
theorem c2_query_filter (rx : String → String → String → Bool) (s : Store2)
    (key : String) (rows : List (String × JVal)) (skip take : Option Nat)
    (hcoll : resolveCollection s key = .vObj rows) :
    query rx s key none skip take = .ok (boundedRows rows skip take)
    ∧ query rx s key (some (.vObj [])) skip take = .ok [] := by
  constructor
  · unfold query
    rw [hcoll, if_neg (by simp [jsTruthy, isObjectJ])]
    show queryLoopGo rx none skip take rows 0 0 = _
    rw [loop_passthrough rx skip take rows 0 0]
    rfl
  · unfold query
    rw [hcoll, if_neg (by simp [jsTruthy, isObjectJ])]
    show queryLoopGo rx (some (.vObj [])) skip take rows 0 0 = _
    rw [loop_emptyFilter rx skip take rows 0 0]

/-- A loaded store whose cache holds a three-row collection. -/
def store2c : Store2 :=
  ⟨.vObj [("a", .vObj [("x", .vNum 1)]), ("b", .vObj [("x", .vNum 2)]),
     ("c", .vObj [("x", .vNum 3)])], none, true, false, true, none, none⟩

/-- C2 counterexample: on a three-row collection, the empty-object filter
`{}` returns no rows (it is a plain object, so every row goes through
`queryRow`, which leaves all group locals `undefined` and excludes it),
while the claim demands the full collection; the absent filter does return
the full collection. -/
theorem c2_counterexample :
    resolveCollection store2c "*"
      = .vObj [("a", .vObj [("x", .vNum 1)]), ("b", .vObj [("x", .vNum 2)]),
          ("c", .vObj [("x", .vNum 3)])]
    ∧ query rxFalse store2c "*" (some (.vObj [])) none none = .ok []
    ∧ query rxFalse store2c "*" none none none
      = .ok [("a", .vObj [("x", .vNum 1)]), ("b", .vObj [("x", .vNum 2)]),
          ("c", .vObj [("x", .vNum 3)])] := by
  refine ⟨rfl, ?_, ?_⟩
  · show queryLoopGo rxFalse (some (.vObj [])) none none
        [("a", .vObj [("x", .vNum 1)]), ("b", .vObj [("x", .vNum 2)]),
          ("c", .vObj [("x", .vNum 3)])] 0 0 = .ok []
    exact loop_emptyFilter rxFalse none none _ 0 0
  · show queryLoopGo rxFalse none none none
        [("a", .vObj [("x", .vNum 1)]), ("b", .vObj [("x", .vNum 2)]),
          ("c", .vObj [("x", .vNum 3)])] 0 0 = _
    rw [loop_passthrough rxFalse none none _ 0 0]
    rfl

theorem c2_witness :
    resolveCollection store2c "*"
      = .vObj [("a", .vObj [("x", .vNum 1)]), ("b", .vObj [("x", .vNum 2)]),
          ("c", .vObj [("x", .vNum 3)])]
    ∧ query rxFalse store2c "*" none (some 1) (some 1)
      = .ok (boundedRows [("a", .vObj [("x", .vNum 1)]), ("b", .vObj [("x", .vNum 2)]),
          ("c", .vObj [("x", .vNum 3)])] (some 1) (some 1))
    ∧ boundedRows [("a", .vObj [("x", .vNum 1)]), ("b", .vObj [("x", .vNum 2)]),
          ("c", .vObj [("x", .vNum 3)])] (some 1) (some 1)
      = [("b", .vObj [("x", .vNum 2)])]
    ∧ query rxFalse store2c "*" (some (.vObj [])) (some 1) (some 1) = .ok [] := by
  refine ⟨rfl, ?_, rfl, ?_⟩
  · exact (c2_query_filter rxFalse store2c "*"
      [("a", .vObj [("x", .vNum 1)]), ("b", .vObj [("x", .vNum 2)]),
        ("c", .vObj [("x", .vNum 3)])] (some 1) (some 1) rfl).1
  · exact (c2_query_filter rxFalse store2c "*"
      [("a", .vObj [("x", .vNum 1)]), ("b", .vObj [("x", .vNum 2)]),
        ("c", .vObj [("x", .vNum 3)])] (some 1) (some 1) rfl).2

end KStor

namespace KStor

/-- Options subset consumed by getPath (kstor.ts 335-372): `name` and `dir`,
each possibly absent. -/
structure PathOptions where
  name : Option String
  dir : Option String

/-- JS `a || b` on a possibly-undefined string: an absent or empty string is
falsy and yields the fallback. -/
def jsOrStr (o : Option String) (b : String) : String :=
  match o with
  | some s => if s = "" then b else s
  | none => b

/-- JS truthiness of a possibly-undefined string (used by
`options.dir && !parsedName.dir`). -/
def jsTruthyOptStr (o : Option String) : Bool :=
  match o with
  | some s => !(s == "")
  | none => false

/-- The test `/\..+$/.test(name)` of kstor.ts 344: the name has a dot with at
least one character after it, i.e. some character before the last one is a
dot. -/
def matchesDotRegex (s : String) : Bool :=
  (s.toList.dropLast).contains '.'

/-- The extension step of kstor.ts 344-345: append `.json` unless the regex
matches. -/
def resolveName (n : String) : String :=
  if matchesDotRegex n then n else n ++ ".json"

/-- Modelled from the spec: Node `path.parse(name).dir` for slash-normalized
POSIX paths — everything before the last `/`, the root `/` kept, `\x22\x22`
when the name has no slash. -/
def parseDir (s : String) : String :=
  if s.toList.contains '/' then
    match ((s.toList.reverse.dropWhile (fun c => c ≠ '/')).drop 1).reverse with
    | [] => "/"
    | l => String.mk l
  else ""

/-- Modelled from the spec: Node `path.parse(name).base` — everything after
the last `/`, or the whole name when it has no slash. -/
def parseBase (s : String) : String :=
  String.mk (s.toList.reverse.takeWhile (fun c => c ≠ '/')).reverse

/-- Modelled from the spec: Node `path.join` on two slash-normalized segments
without `.`/`..` components: an empty segment is dropped, otherwise the
segments are joined with a single `/`. -/
def pathJoin (a b : String) : String :=
  if a = "" then b else if b = "" then a else a ++ "/" ++ b

/-- getPath (kstor.ts 335-372). `pkgName` is `this._pkg.name` (possibly
absent), `cwdBase` is `basename(this._cwd)` and `home` is `homedir()`; these
and the Node path helpers are the only spec-modelled inputs, the control flow
is the source's. -/
def getPath (pkgName : Option String) (cwdBase home : String)
    (options : PathOptions) : String :=
  let isUserDir := options.dir.isSome
  let name0 := jsOrStr options.name "config.json"
  let folder0 := jsOrStr pkgName cwdBase
  let name1 := resolveName name0
  let pdir := parseDir name1
  let name2 := if pdir ≠ "" then parseBase name1 else name1
  let folder1 := if pdir ≠ "" then pdir else folder0
  let folder2 := if jsTruthyOptStr options.dir && (pdir == "") then "" else folder1
  let dir := jsOrStr options.dir home
  let name3 := pathJoin folder2 name2
  if !isUserDir then pathJoin (pathJoin dir ".kstor") name3
  else pathJoin dir name3

end KStor

namespace KStor

theorem stringDataExt (s t : String) (h : s.data = t.data) : s = t := by
  cases s; cases t; exact congrArg String.mk h

theorem data_append (a b : String) : (a ++ b).data = a.data ++ b.data := rfl

theorem pathJoin_ne (a b : String) (ha : a ≠ "") (hb : b ≠ "") :
    pathJoin a b = a ++ "/" ++ b := by
  unfold pathJoin; rw [if_neg ha, if_neg hb]

theorem append_ne_right (a b : String) (hb : b ≠ "") : a ++ b ≠ "" := by
  intro h
  have h2 := congrArg String.data h
  rw [data_append] at h2
  exact hb (stringDataExt b "" (List.append_eq_nil.mp h2).2)

/-- C8 (amended): with name and dir both unset the resolved storage path is
`home/.kstor/appName/config.json`, where `appName` is `jsOrStr pkgName
cwdBase` — the package's declared name, falling back to the cwd's base name
when the declared name is absent or empty; and a configured name matching
`/\..+$/`, i.e. holding a dot with at least one character AFTER it (not
merely containing a dot: a trailing dot does not count) keeps its name with
no `.json` appended. -/
theorem c8_getPath (pkgName : Option String) (cwdBase home : String)
    (happ : jsOrStr pkgName cwdBase ≠ "") (hhome : home ≠ "") :
    getPath pkgName cwdBase home ⟨none, none⟩
      = home ++ "/.kstor/" ++ jsOrStr pkgName cwdBase ++ "/config.json"
    ∧ jsOrStr none cwdBase = cwdBase
    ∧ (∀ s : String, s ≠ "" → jsOrStr (some s) cwdBase = s)
    ∧ (∀ n : String, matchesDotRegex n = true → resolveName n = n) := by
  refine ⟨?_, rfl, fun s hs => by rw [jsOrStr, if_neg hs],
    fun n hn => by rw [resolveName, if_pos hn]⟩
  show pathJoin (pathJoin home ".kstor") (pathJoin (jsOrStr pkgName cwdBase) "config.json")
      = home ++ "/.kstor/" ++ jsOrStr pkgName cwdBase ++ "/config.json"
  rw [pathJoin_ne home ".kstor" hhome (by decide),
      pathJoin_ne (jsOrStr pkgName cwdBase) "config.json" happ (by decide),
      pathJoin_ne _ _ (append_ne_right _ _ (by decide)) (append_ne_right _ _ (by decide))]
  refine stringDataExt _ _ ?_
  simp [data_append, List.append_assoc]

/-- C8 counterexample: the name `custom.` contains a dot, yet the source's
regex `/\..+$/` does not match it (no character after the dot), so `.json`
is still appended and the resolved path is `/d/custom..json` — refuting the
claim that a name already containing a dot gets no extension appended. -/
theorem c8_counterexample :
    ("custom.".toList.contains '.') = true
    ∧ getPath (some "kstor") "cwd" "/home/u" ⟨some "custom.", some "/d"⟩
      = "/d/custom..json" := ⟨rfl, rfl⟩

theorem c8_witness :
    jsOrStr (some "kstor") "proj" ≠ "" ∧ ("/home/u" : String) ≠ ""
    ∧ getPath (some "kstor") "proj" "/home/u" ⟨none, none⟩
        = "/home/u" ++ "/.kstor/" ++ jsOrStr (some "kstor") "proj" ++ "/config.json"
    ∧ getPath (some "kstor") "proj" "/home/u" ⟨none, none⟩
        = "/home/u/.kstor/kstor/config.json"
    ∧ resolveName "with-ext.rc" = "with-ext.rc" := by
  refine ⟨by decide, by decide, ?_, rfl, ?_⟩
  · exact (c8_getPath (some "kstor") "proj" "/home/u" (by decide) (by decide)).1
  · exact (c8_getPath (some "kstor") "proj" "/home/u" (by decide) (by decide)).2.2.2
      "with-ext.rc" rfl

end KStor
